import Mathlib

/-!
Verification development for the slot-filling / confirmation core of the
`agentic-chief-of-staff` backend (`backend/app/agents/calendar_agent.py`,
`backend/app/agents/email_agent.py`, `backend/app/agents/graph.py`).

Conventions of the shallow embedding:
* Python `dict.get(key)` values that may be absent are `Option _`; Python
  truthiness of such a field (`if value:`) is the `truthy` test below
  (absent and `""` are falsy).
* Python `str.lower()` is modelled per character (`slower`), which agrees
  with CPython on ASCII text.
* Timestamps (`datetime.utcnow()`, `checked_at`) are modelled as integer
  seconds; `datetime.fromisoformat` parse failure or a missing value is
  `none`.
* External collaborators (`has_calendar_conflict`, `create_calendar_event_details`,
  `send_email`, the LLM) are inputs of the embedded functions, as the spec
  treats them as external interfaces.
-/

/-- Python truthiness of an optional string field (`None` and `""` are falsy). -/
def truthy : Option String → Bool
  | none => false
  | some s => s != ""

/-- Python `att.get(key) or ""` for an optional string field. -/
def oget : Option String → String
  | none => ""
  | some s => s

/-- Python `str.lower()`, modelled per character (faithful on ASCII). -/
def slower (s : String) : String := String.mk (s.data.map Char.toLower)

/-- An attendee record of a scheduling PendingAction: `{name?, email?}`. -/
structure Att where
  name : Option String
  email : Option String
deriving DecidableEq, Repr

/-- `(att.get("email") or "").lower() == email.lower()` from `_merge_attendees`. -/
def emailMatches (e : String) (a : Att) : Bool := slower (oget a.email) == slower e

/-- `(att.get("name") or "").lower() == name.lower()` from `_merge_attendees`. -/
def nameMatches (n : String) (a : Att) : Bool := slower (oget a.name) == slower n

/-- `att.get("name") and not att.get("email")` (a name-only attendee). -/
def nameOnly (a : Att) : Bool := truthy a.name && !truthy a.email

/-- `att.get("email") and not att.get("name")` (an email-only attendee). -/
def emailOnly (a : Att) : Bool := truthy a.email && !truthy a.name

/-- An attendee that carries at least one truthy field
(`att.get("name") or att.get("email")`). -/
def keepAtt (a : Att) : Bool := truthy a.name || truthy a.email

/-- Replace the first element satisfying `p` by its image under `f`
(in-place mutation of the `next(...)` match in the Python source). -/
def updateFirst (p : Att → Bool) (f : Att → Att) : List Att → List Att
  | [] => []
  | a :: rest => if p a then f a :: rest else a :: updateFirst p f rest

/-- One iteration of the `for attendee in new` loop of
`CalendarAgent._merge_attendees` (calendar_agent.py lines 721-753). -/
def mergeStep (merged : List Att) (a : Att) : List Att :=
  if !truthy a.name && !truthy a.email then merged
  else if truthy a.email then
    let e := oget a.email
    match merged.find? (emailMatches e) with
    | some _ =>
        if truthy a.name then
          updateFirst (emailMatches e)
            (fun att => if truthy att.name then att else { att with name := a.name }) merged
        else merged
    | none =>
        if !truthy a.name && merged.countP nameOnly == 1 then
          updateFirst nameOnly (fun att => { att with email := a.email }) merged
        else if truthy a.name && (merged.find? (nameMatches (oget a.name))).isSome then
          updateFirst (nameMatches (oget a.name))
            (fun att => if truthy att.email then att else { att with email := a.email }) merged
        else merged ++ [⟨a.name, a.email⟩]
  else
    -- here `a.name` is truthy and `a.email` is falsy
    if (merged.find? (nameMatches (oget a.name))).isSome then merged
    else if merged.countP emailOnly == 1 then
      updateFirst emailOnly (fun att => { att with name := a.name }) merged
    else merged ++ [⟨a.name, none⟩]

/-- `CalendarAgent._merge_attendees` (calendar_agent.py lines 719-754). -/
def merge_attendees (existing new : List Att) : List Att :=
  new.foldl mergeStep (existing.filter keepAtt)

example : merge_attendees [] [⟨some "Bob", none⟩, ⟨none, some "bob@x.com"⟩]
    = [⟨some "Bob", some "bob@x.com"⟩] := by decide

example : merge_attendees [⟨some "Bob", some "old@x.com"⟩]
      [⟨some "Bob", some "new@x.com"⟩, ⟨none, some "new@x.com"⟩]
    = [⟨some "Bob", some "old@x.com"⟩, ⟨none, some "new@x.com"⟩] := by decide

/-! ## String utilities modelling Python primitives -/

/-- Python's default `str.strip()` / `str.split()` whitespace set (ASCII part). -/
def isPyWs (c : Char) : Bool :=
  c == ' ' || c == '\t' || c == '\n' || c == '\r' || c == '\x0b' || c == '\x0c'

/-- Python `str.strip()` (ASCII whitespace). -/
def pstrip (s : String) : String :=
  String.mk (((s.data.dropWhile isPyWs).reverse.dropWhile isPyWs).reverse)

/-- Helper for `wsplit`. -/
def wsplitAux : List Char → List Char → List String
  | [], acc => if acc.isEmpty then [] else [String.mk acc.reverse]
  | c :: cs, acc =>
    if isPyWs c then
      if acc.isEmpty then wsplitAux cs [] else String.mk acc.reverse :: wsplitAux cs []
    else wsplitAux cs (c :: acc)

/-- Python `str.split()` with no argument: split on whitespace runs,
discarding empty pieces. -/
def wsplit (s : String) : List String := wsplitAux s.data []

/-- `needle in hay` for Python strings (substring containment). -/
def strContainsSub (hay needle : String) : Bool := go hay.data
  where go : List Char → Bool
    | [] => needle.data.isEmpty
    | c :: cs => needle.data.isPrefixOf (c :: cs) || go cs

/-- Python `value or default` for an optional string against a string default. -/
def pyor (v : Option String) (dflt : String) : String :=
  if truthy v then oget v else dflt

/-! ## Calendar agent: PendingAction data model -/

/-- The `availability_checked` / `confirmation_snapshot` cached sub-record:
`{date, time, duration_minutes, status, checked_at}`
(calendar_agent.py lines 168-174 and 241-247).  `checked_at` is the parsed
timestamp in seconds (`none` when missing or unparseable). -/
structure AvailCheck where
  date : Option String
  time : Option String
  duration_minutes : Option Nat
  status : Option String
  checked_at : Option Int
deriving DecidableEq, Repr

/-- The scheduling PendingAction (`pending_event` metadata blob). -/
structure Details where
  title : Option String
  date : Option String
  time : Option String
  duration_minutes : Option Nat
  attendee_name : Option String
  attendee_email : Option String
  attendee_email_source : Option String
  attendees : List Att
  availability_checked : Option AvailCheck
  confirmation_snapshot : Option AvailCheck
  location : Option String
  notes : Option String
deriving DecidableEq, Repr

/-- A PendingAction with no collected fields (a fresh `{}` blob). -/
def emptyDetails : Details :=
  ⟨none, none, none, none, none, none, none, [], none, none, none, none⟩

/-- Python `int(x.get("duration_minutes") or 60)`: missing and `0` are falsy
and default to 60. -/
def effDur : Option Nat → Nat
  | none => 60
  | some 0 => 60
  | some n => n

/-- `CalendarAgent._time_fields_changed` (calendar_agent.py lines 776-787). -/
def time_fields_changed (d : Details) (prev_date prev_time : Option String)
    (prev_duration : Nat) : Bool :=
  d.date != prev_date || d.time != prev_time || effDur d.duration_minutes != prev_duration

/-- `CalendarAgent._availability_check_is_fresh` (calendar_agent.py lines
789-806).  `now` is `datetime.utcnow()` in seconds, `ttl_minutes` the TTL
parameter (every caller uses the default 5). -/
def availability_check_is_fresh (now : Int) (ttl_minutes : Int) (d : Details) : Bool :=
  match d.availability_checked with
  | none => false
  | some check =>
    if check.date != d.date then false
    else if check.time != d.time then false
    else if effDur check.duration_minutes != effDur d.duration_minutes then false
    else match check.checked_at with
      | none => false
      | some checked_dt => decide (now - checked_dt ≤ ttl_minutes * 60)

/-- `CalendarAgent._confirmation_snapshot_is_valid` (calendar_agent.py lines
808-820). -/
def confirmation_snapshot_is_valid (d : Details) : Bool :=
  match d.confirmation_snapshot with
  | none => false
  | some snapshot =>
    if snapshot.status != some "clear" then false
    else if snapshot.date != d.date then false
    else if snapshot.time != d.time then false
    else if effDur snapshot.duration_minutes != effDur d.duration_minutes then false
    else true

/-- `CalendarAgent._missing_required_fields` (calendar_agent.py lines 756-774). -/
def missing_required_fields (d : Details) : List String :=
  let base := (if !truthy d.title then ["title"] else [])
    ++ (if !truthy d.date then ["date"] else [])
    ++ (if !truthy d.time then ["time"] else [])
  if d.attendees.isEmpty then base ++ ["attendee email"]
  else
    let missing_emails := d.attendees.filter (fun att => !truthy att.email)
    if missing_emails.isEmpty then base
    else base ++ ["attendee email for "
      ++ String.intercalate ", " (missing_emails.map (fun att => pyor att.name "unknown attendee"))]

/-- `CalendarAgent._normalize_attendee_name` (calendar_agent.py lines 822-831). -/
def normalize_attendee_name : Option String → Option String
  | none => none
  | some name =>
    if name == "" then none
    else
      match wsplit (pstrip name) with
      | [] => none
      | t :: ts =>
        let tokens := if slower t == "am" || slower t == "pm" then ts else t :: ts
        let cleaned := pstrip (String.intercalate " " tokens)
        if cleaned == "" then none else some cleaned

/-- `CalendarAgent._format_attendees_for_user` (calendar_agent.py lines 833-847). -/
def format_attendees_for_user (attendees : List Att) : String :=
  let formatted := attendees.filterMap (fun attendee =>
    let name := pstrip (oget attendee.name)
    let email := pstrip (oget attendee.email)
    if name == "" && email == "" then none
    else if name != "" && email != "" then
      some (pyor (normalize_attendee_name (some name)) name ++ " <" ++ email ++ ">")
    else if email != "" then some email
    else some (pyor (normalize_attendee_name (some name)) name))
  if formatted.isEmpty then "None" else String.intercalate ", " formatted

/-- `settings.GOOGLE_CALENDAR_TIMEZONE` — supplied by the deployment
environment (it has no default in `config.py`); its value is immaterial to
the claims, so it is modelled as a constant. -/
def GOOGLE_CALENDAR_TIMEZONE : String := "UTC"

/-- `CalendarAgent._build_confirmation_message` (calendar_agent.py lines 849-864). -/
def build_confirmation_message (d : Details) : String :=
  let title := pyor d.title "Meeting"
  let date := pyor d.date "TBD"
  let time := pyor d.time "TBD"
  let attendees := format_attendees_for_user d.attendees
  let lines := ["Please confirm the meeting details:",
    "Title: " ++ title,
    "When: " ++ date ++ " " ++ time ++ " (" ++ GOOGLE_CALENDAR_TIMEZONE ++ ")",
    "Attendees: " ++ attendees]
  let lines := if truthy d.location then lines ++ ["Location: " ++ oget d.location] else lines
  String.intercalate "\n" (lines ++ ["Reply \"confirm\" to book this meeting and send the invite."])

/-! ## Calendar agent: one slot-filling turn

The regex layer of `_apply_extracted_fields` operates on the raw turn text;
its outcomes are collected in `TurnExtraction` (the name/email scanners that
the claims are about are modelled at character level further below). -/

/-- The outcomes of the per-turn text scanners of `CalendarAgent`, as consumed
by `_apply_extracted_fields` / `process`.  `emails` is `_extract_emails(text)`
(`_extract_email` is its head); the scanners are whitespace-strip invariant,
so the calls on `text` and on `text.strip()` coincide except for
`_extract_attendee_name`, whose result on the stripped text is kept
separately in `name_of_stripped`. -/
structure TurnExtraction where
  emails : List String
  attendee_name : Option String
  name_of_stripped : Option String
  parsed_date : Option String
  parsed_time : Option String
  title_label : Option String
  stripped_text : String
  notes_phrase : Option String
  attendee_pairs : List Att
  is_confirmation : Bool
  is_schedule_request : Bool
deriving Repr

/-- `_apply_extracted_fields`: merge the extracted attendee pairs
(calendar_agent.py lines 560-564). -/
def apply_attendee_pairs (d : Details) (ex : TurnExtraction) : Details :=
  if !ex.attendee_pairs.isEmpty
  then { d with attendees := merge_attendees d.attendees ex.attendee_pairs } else d

/-- `_apply_extracted_fields`: the primary email (lines 566-569). -/
def apply_email_field (d : Details) (ex : TurnExtraction) (overwrite : Bool) : Details :=
  match ex.emails.head? with
  | some e =>
    if overwrite || !truthy d.attendee_email
    then { d with attendee_email := some e, attendee_email_source := some "user" } else d
  | none => d

/-- `_apply_extracted_fields`: the attendee name (lines 570-572). -/
def apply_name_field (d : Details) (ex : TurnExtraction) (overwrite : Bool) : Details :=
  match ex.attendee_name with
  | some nm =>
    if nm != "" && (overwrite || !truthy d.attendee_name)
    then { d with attendee_name := some nm } else d
  | none => d

/-- `_apply_extracted_fields`: the labelled or bare title (lines 574-590). -/
def apply_title_field (d : Details) (ex : TurnExtraction) (overwrite : Bool) : Details :=
  match ex.title_label with
  | some t => if overwrite || !truthy d.title then { d with title := some t } else d
  | none =>
    if (overwrite || !truthy d.title) && !truthy d.title then
      if ex.stripped_text != "" && ex.emails.isEmpty
          && !(ex.parsed_date.isSome || ex.parsed_time.isSome)
          && !ex.is_confirmation && !(ex.name_of_stripped.isSome)
      then { d with title := some ex.stripped_text } else d
    else d

/-- `_apply_extracted_fields`: the parsed date (lines 591-593). -/
def apply_date_field (d : Details) (ex : TurnExtraction) (overwrite : Bool) : Details :=
  match ex.parsed_date with
  | some dt => if overwrite || !truthy d.date then { d with date := some dt } else d
  | none => d

/-- `_apply_extracted_fields`: the parsed time (lines 594-595). -/
def apply_time_field (d : Details) (ex : TurnExtraction) (overwrite : Bool) : Details :=
  match ex.parsed_time with
  | some tm => if overwrite || !truthy d.time then { d with time := some tm } else d
  | none => d

/-- `_apply_extracted_fields`: the notes phrase (lines 596-599). -/
def apply_notes_field (d : Details) (ex : TurnExtraction) : Details :=
  if !truthy d.notes then
    match ex.notes_phrase with
    | some ns => { d with notes := some ns }
    | none => d
  else d

/-- `CalendarAgent._apply_extracted_fields` (calendar_agent.py lines 558-600),
as the chain of its per-field statements. -/
def apply_extracted_fields (d : Details) (ex : TurnExtraction) (overwrite : Bool) : Details :=
  apply_notes_field
    (apply_time_field
      (apply_date_field
        (apply_title_field
          (apply_name_field
            (apply_email_field (apply_attendee_pairs d ex) ex overwrite) ex overwrite)
          ex overwrite) ex overwrite) ex overwrite) ex

/-- `merged.get(key)` falsy test, then take the incoming value. -/
def mergeS (base inc : Option String) : Option String :=
  match inc with
  | none => base
  | some v => if truthy base then base else some v

/-- `CalendarAgent._merge_missing_details` (calendar_agent.py lines 631-638),
specialised to the keys that `_extract_details_from_history` can actually
produce (it never sets `duration_minutes`, `location`, `availability_checked`
or `confirmation_snapshot`, so those pass through from `base`). -/
def merge_missing_details (base incoming : Details) : Details :=
  { base with
    title := mergeS base.title incoming.title
    date := mergeS base.date incoming.date
    time := mergeS base.time incoming.time
    attendee_name := mergeS base.attendee_name incoming.attendee_name
    attendee_email := mergeS base.attendee_email incoming.attendee_email
    attendee_email_source := mergeS base.attendee_email_source incoming.attendee_email_source
    notes := mergeS base.notes incoming.notes
    attendees := if base.attendees.isEmpty then incoming.attendees else base.attendees }

/-! ## Calendar agent: side-effect environment and outcomes -/

/-- External collaborator results visible to one turn of `CalendarAgent`:
`_build_event_times` success (its `ValueError` text when it fails),
`has_calendar_conflict` (`.error` = `CalendarSendError`),
`create_calendar_event_details` (`.error` = `CalendarSendError`, `.ok` =
`(htmlLink, meetLink)`), and `send_email` per recipient
(`some msg` = `EmailSendError`). -/
structure CalEnv where
  now : Int
  build_ok : Bool
  build_err : String
  conflict : Except String Bool
  create_event : Except String (String × String)
  send_email_err : String → Option String

/-- The user-facing part of an `AgentResponse`. -/
structure AgentResponseM where
  status : String
  message : String
  clarification_question : Option String
deriving DecidableEq, Repr

/-- Result of a calendar turn: the response, the `pending_event` metadata
after the turn, and which collaborator calls were made. -/
structure CalendarOutcome where
  response : AgentResponseM
  pending_event : Option Details
  conflict_checked : Bool
  create_called : Bool
  emails_attempted : List String
deriving Repr

/-- `CalendarAgent._send_pending_event` (calendar_agent.py lines 908-1003).
`stored` is the `pending_event` metadata at call time.  The Google event
payload and the invite-mail body, passed verbatim to the external
collaborators, are not modelled; the outcome records the collaborator calls
and the user-facing response. -/
def send_pending_event (env : CalEnv) (stored : Option Details) (d : Details) : CalendarOutcome :=
  if !env.build_ok then
    -- `_build_event_times` raised ValueError: retain the details and ask again
    { response := ⟨"needs_clarification", env.build_err, some "What date and time should I use?"⟩
      pending_event := some d
      conflict_checked := false, create_called := false, emails_attempted := [] }
  else
    let atts := if !d.attendees.isEmpty then d.attendees
      else if truthy d.attendee_email then [⟨d.attendee_name, d.attendee_email⟩] else []
    match env.create_event with
    | .error exc =>
      { response := ⟨"error", "I couldn't create the calendar event: " ++ exc, none⟩
        pending_event := stored
        conflict_checked := false, create_called := true, emails_attempted := [] }
    | .ok (link, meet_link) =>
      let recipients := atts.filter (fun att => truthy att.email)
      let email_failures := recipients.filterMap (fun att =>
        match env.send_email_err (oget att.email) with
        | some exc => some (oget att.email ++ " (" ++ exc ++ ")")
        | none => none)
      let r0 := "Event created on your Google Calendar."
      let r1 := if meet_link != "" then r0 ++ " Google Meet link: " ++ meet_link ++ "." else r0
      let r2 :=
        if !atts.isEmpty then
          if !email_failures.isEmpty then
            r1 ++ " I couldn't send the invite to: " ++ String.intercalate ", " email_failures ++ "."
          else r1 ++ " Invitations sent via email."
        else r1
      let r3 := if link != "" then r2 ++ " [Open event](" ++ link ++ ")." else r2
      { response := ⟨"success", r3, none⟩
        pending_event := none
        conflict_checked := false, create_called := true
        emails_attempted := recipients.map (fun att => oget att.email) }

/-- The conflict / clear cache record written by `process`
(calendar_agent.py lines 168-174, 182-188, 219-225, 234-240). -/
def checkRecord (d : Details) (status : String) (now : Int) : AvailCheck :=
  ⟨d.date, d.time, some (effDur d.duration_minutes), some status, some now⟩

/-- The "conflict" clarification returned by `process`. -/
def conflictResponse : AgentResponseM :=
  ⟨"needs_clarification",
   "That time conflicts with an existing event. Please choose another date or time.",
   some "What date and time should I book instead?"⟩

/-- The missing-fields clarification returned by `process`
(calendar_agent.py lines 146-151 and 201-207). -/
def missingResponse (missing : List String) : AgentResponseM :=
  ⟨"needs_clarification", "Please provide the " ++ String.intercalate ", " missing ++ ".",
   some "What details should I use?"⟩

/-- The PendingAction after seeding missing fields from the conversation
history (calendar_agent.py lines 114-115): the stored pending (or `{}`)
merged with `_extract_details_from_history`. -/
def details_after_history (pending history : Option Details) : Details :=
  let details0 := pending.getD emptyDetails
  match history with
  | some h => merge_missing_details details0 h
  | none => details0

/-- The PendingAction after applying this turn's extracted fields
(calendar_agent.py line 119). -/
def details_after_apply (pending history : Option Details) (ex : TurnExtraction) : Details :=
  apply_extracted_fields (details_after_history pending history) ex true

/-- The PendingAction used for every confirmation/availability/send decision
of the turn (calendar_agent.py lines 116-140): the merged details, with both
cached sub-records removed when date/time/duration changed, plus the primary
email/attendee normalisation.  This value is also what line 140 stores.
(`details_after_invalidate` is the cache-invalidation statement of lines
116-122 alone.) -/
def details_after_invalidate (pending history : Option Details) (ex : TurnExtraction) : Details :=
  let details1 := details_after_history pending history
  let details2 := details_after_apply pending history ex
  if time_fields_changed details2 details1.date details1.time (effDur details1.duration_minutes)
  then { details2 with availability_checked := none, confirmation_snapshot := none }
  else details2

/-- Lines 123-139: primary-email overwrite and attendee-list normalisation,
yielding the value every later decision of the turn reads and stores. -/
def decision_details (pending history : Option Details) (ex : TurnExtraction) : Details :=
  let details3 := details_after_invalidate pending history ex
  let details4 := match ex.emails.head? with
    | some e => { details3 with attendee_email := some e, attendee_email_source := some "user" }
    | none => details3
  let atts :=
    if truthy details4.attendee_name || truthy details4.attendee_email
    then merge_attendees details4.attendees [⟨details4.attendee_name, details4.attendee_email⟩]
    else details4.attendees
  let details5 := { details4 with attendees := atts }
  match atts with
  | [a] =>
    let d' := { details5 with attendee_name := a.name, attendee_email := a.email }
    if truthy a.email then { d' with attendee_email_source := some "user" } else d'
  | _ => details5

/-- `CalendarAgent.process` (calendar_agent.py lines 95-264) on the
slot-filling path.  `pending` is the stored `pending_event`, `history` the
result of `_extract_details_from_history` (`none` = empty dict), `ex` the
scanner outcomes on the turn text.  Returns `none` on the LLM fallback path
(lines 266-338), which never touches the PendingAction. -/
def calendar_process (env : CalEnv) (pending : Option Details) (history : Option Details)
    (ex : TurnExtraction) : Option CalendarOutcome :=
  if pending.isNone && !ex.is_schedule_request && history.isNone then none
  else
    let details6 := decision_details pending history ex
    -- `self._set_pending_event(conversation_id, details)` (line 140)
    let missing := missing_required_fields details6
    some (
      if ex.is_confirmation then
        if !missing.isEmpty then
          { response := missingResponse missing, pending_event := some details6
            conflict_checked := false, create_called := false, emails_attempted := [] }
        else match details6.availability_checked with
        | some availability =>
          if availability.status == some "conflict" then
            { response := conflictResponse, pending_event := some details6
              conflict_checked := false, create_called := false, emails_attempted := [] }
          else send_pending_event env (some details6) details6
        | none =>
          if env.build_ok then
            match env.conflict with
            | .error exc =>
              { response := ⟨"error", "I couldn't check calendar availability: " ++ exc, none⟩
                pending_event := some details6
                conflict_checked := true, create_called := false, emails_attempted := [] }
            | .ok true =>
              let d' := { details6 with availability_checked := some (checkRecord details6 "conflict" env.now) }
              { response := conflictResponse, pending_event := some d'
                conflict_checked := true, create_called := false, emails_attempted := [] }
            | .ok false =>
              let d' := { details6 with availability_checked := some (checkRecord details6 "clear" env.now) }
              let o := send_pending_event env (some d') d'
              { o with conflict_checked := true }
          else
            -- `_build_event_times` raised ValueError: `except ValueError: pass`,
            -- then line 199 sends anyway (and fails again inside `_send_pending_event`)
            send_pending_event env (some details6) details6
      else
        if !missing.isEmpty then
          { response := missingResponse missing, pending_event := some details6
            conflict_checked := false, create_called := false, emails_attempted := [] }
        else if env.build_ok then
          if availability_check_is_fresh env.now 5 details6 then
            { response := ⟨"needs_clarification", build_confirmation_message details6, some "Confirm booking?"⟩
              pending_event := some details6
              conflict_checked := false, create_called := false, emails_attempted := [] }
          else match env.conflict with
          | .error exc =>
            { response := ⟨"error", "I couldn't check calendar availability: " ++ exc, none⟩
              pending_event := some details6
              conflict_checked := true, create_called := false, emails_attempted := [] }
          | .ok true =>
            let d' := { details6 with
              availability_checked := some (checkRecord details6 "conflict" env.now)
              confirmation_snapshot := none }
            { response := conflictResponse, pending_event := some d'
              conflict_checked := true, create_called := false, emails_attempted := [] }
          | .ok false =>
            let d' := { details6 with
              availability_checked := some (checkRecord details6 "clear" env.now)
              confirmation_snapshot := some (checkRecord details6 "clear" env.now) }
            { response := ⟨"needs_clarification", build_confirmation_message d', some "Confirm booking?"⟩
              pending_event := some d'
              conflict_checked := true, create_called := false, emails_attempted := [] }
        else
          -- ValueError from `_build_event_times`: `except ValueError: pass`,
          -- then line 259 re-presents the confirmation request
          { response := ⟨"needs_clarification", build_confirmation_message details6, some "Confirm booking?"⟩
            pending_event := some details6
            conflict_checked := false, create_called := false, emails_attempted := [] })

/-! ## Email agent -/

/-- The `email_content` / `pending_email` record `{to, to_name, subject, body, tone}`. -/
structure EmailContent where
  to_email : Option String   -- the "to" key ("to" is a reserved token in Lean)
  to_name : Option String
  subject : Option String
  body : Option String
  tone : Option String
deriving DecidableEq, Repr

/-- `EmailAgent._is_confirmation` (email_agent.py lines 196-207): the
lowercased, stripped turn text must equal one of eight fixed phrases. -/
def email_is_confirmation (text : String) : Bool :=
  ["send", "send it", "yes", "y", "confirm", "go ahead", "please send", "send now"].contains
    (pstrip (slower text))

/-- `EmailAgent._is_cancellation` (email_agent.py lines 209-217). -/
def email_is_cancellation (text : String) : Bool :=
  ["cancel", "no", "don't send", "do not send", "stop"].contains (pstrip (slower text))

/-- `EmailAgent._format_email_display` (email_agent.py lines 181-194). -/
def format_email_display (ec : EmailContent) : String :=
  let lines := ["---📧 EMAIL DRAFT ---"]
  let lines := if truthy ec.to_email then
      lines ++ ["**To:** " ++ (if truthy ec.to_name
        then oget ec.to_name ++ " <" ++ oget ec.to_email ++ ">" else oget ec.to_email)]
    else lines
  let lines := if truthy ec.subject then lines ++ ["**Subject:** " ++ oget ec.subject] else lines
  let lines := lines ++ [""]
  let lines := if truthy ec.body then lines ++ [oget ec.body] else lines
  String.intercalate "\n" (lines ++ ["\n--- END DRAFT ---"])

/-- The email delivery collaborator result for one turn:
`none` = success, `some msg` = `EmailSendError`. -/
structure EmailEnv where
  send_result : Option String

/-- Result of an email turn: the response, the `pending_email` metadata after
the turn, and whether `send_email` was invoked. -/
structure EmailOutcome where
  response : AgentResponseM
  pending_email : Option EmailContent
  send_attempted : Bool
deriving DecidableEq, Repr

/-- `EmailAgent._send_pending_email` (email_agent.py lines 267-289).
`stored` is the `pending_email` metadata at call time. -/
def send_pending_email (env : EmailEnv) (stored : Option EmailContent) : EmailOutcome :=
  match env.send_result with
  | some exc =>
    { response := ⟨"error", "I couldn't send the email: " ++ exc, none⟩
      pending_email := stored, send_attempted := true }
  | none =>
    { response := ⟨"success", "Email sent successfully.", none⟩
      pending_email := none, send_attempted := true }

/-- The draft path of `EmailAgent.process` (email_agent.py lines 145-165):
`llm_content` is the parsed `email_content` of the LLM reply and
`llm_user_response` its `response_to_user`. -/
def email_draft_turn (stored : Option EmailContent) (llm_content : EmailContent)
    (llm_user_response : String) : EmailOutcome :=
  let ur :=
    if truthy llm_content.body then
      llm_user_response ++ "\n\n" ++ format_email_display llm_content
        ++ "\n\nReply “send it” to confirm sending."
    else llm_user_response
  if truthy llm_content.to_email && truthy llm_content.subject && truthy llm_content.body then
    { response := ⟨"success", ur, none⟩
      pending_email := some ⟨llm_content.to_email, llm_content.to_name, llm_content.subject,
        llm_content.body, llm_content.tone⟩
      send_attempted := false }
  else
    { response := ⟨"success", ur ++ "\n\nPlease provide the recipient email and subject.", none⟩
      pending_email := stored, send_attempted := false }

/-- `EmailAgent.process` (email_agent.py lines 76-165), after the
conversation-id guard. -/
def email_process (env : EmailEnv) (pending : Option EmailContent) (task_text : String)
    (llm_content : EmailContent) (llm_user_response : String) : EmailOutcome :=
  match pending with
  | some _ =>
    if email_is_confirmation task_text then send_pending_email env pending
    else if email_is_cancellation task_text then
      { response := ⟨"success", "Okay, I will not send that email.", none⟩
        pending_email := none, send_attempted := false }
    else email_draft_turn pending llm_content llm_user_response
  | none => email_draft_turn pending llm_content llm_user_response

/-! ## Workflow controller (graph.py) -/

/-- `settings.MAX_AGENT_ITERATIONS` (config.py line 38). -/
def MAX_AGENT_ITERATIONS : Nat := 10

/-- The registered agent names (`AGENTS` dict, graph.py lines 27-35). -/
def AGENTS_KEYS : List String :=
  ["orchestrator", "calendar", "email", "research", "task", "analytics", "pdf"]

/-- The routing-relevant slice of `AgentState`. -/
structure GState where
  iteration_count : Nat
  user_clarification_needed : Bool
  next_agent : Option String
  current_agent : String
  remaining_delegations : List String  -- agent names from task_context['remaining_delegations']
deriving Repr

/-- `route_after_orchestrator` (graph.py lines 160-176).  `END` is the
LangGraph terminal constant (the string "__end__"). -/
def route_after_orchestrator (maxIter : Nat) (s : GState) : String :=
  if s.iteration_count ≥ maxIter then "synthesizer"
  else if s.user_clarification_needed then "__end__"
  else match s.next_agent with
    | some next =>
      if next != "" && AGENTS_KEYS.contains next then
        if next == "task" then "task_agent" else next
      else "synthesizer"
    | none => "synthesizer"

/-- `route_after_worker` (graph.py lines 179-197). -/
def route_after_worker (maxIter : Nat) (s : GState) : String :=
  if s.iteration_count ≥ maxIter then "synthesizer"
  else if s.current_agent == "pdf" then "__end__"
  else match s.remaining_delegations.head? with
    | some agent =>
      let next := slower agent
      if AGENTS_KEYS.contains next then
        if next == "task" then "task_agent" else next
      else "synthesizer"
    | none => "synthesizer"

/-- Nodes of the compiled workflow graph, plus the two terminal
configurations: `done` (END reached) and `failed` (the router returned a
value missing from the conditional-edge mapping, which aborts the run). -/
inductive GNode where
  | orchestrator | calendar | email | research | task_agent | analytics | pdf
  | synthesizer | done | failed
deriving DecidableEq, Repr

/-- Whether a node executes a worker/router step (the orchestrator or a
worker agent, as opposed to the synthesizer or a terminal configuration). -/
def isWorkerStep : GNode → Bool
  | .orchestrator | .calendar | .email | .research | .task_agent | .analytics | .pdf => true
  | _ => false

/-- The conditional-edge mapping shared by the orchestrator and the workers
(graph.py lines 220-250): router return values not present in the mapping
abort the run. -/
def edgeTarget : String → Option GNode
  | "calendar" => some .calendar
  | "email" => some .email
  | "research" => some .research
  | "task" => some .task_agent
  | "analytics" => some .analytics
  | "pdf" => some .pdf
  | "synthesizer" => some .synthesizer
  | "__end__" => some .done
  | _ => none

/-- What the environment (LLM + agent logic) feeds one node execution:
the orchestrator response flags and `next_agent` hint, a worker's
`next_agent`, and the `remaining_delegations` read from `task_context`. -/
structure StepInput where
  orch_needs_clarification : Bool
  orch_next_agent : Option String
  worker_next_agent : Option String
  delegations : List String

/-- One node execution plus routing.  Executing a worker/router node
increments `iteration_count` (graph.py lines 69, 126, 156); the synthesizer
also increments but always ends. -/
def gStep (maxIter : Nat) (inp : StepInput) : GNode × GState → GNode × GState
  | (.orchestrator, s) =>
    let s' := { s with
      iteration_count := s.iteration_count + 1
      user_clarification_needed := inp.orch_needs_clarification
      next_agent := inp.orch_next_agent
      current_agent := "orchestrator" }
    match edgeTarget (route_after_orchestrator maxIter s') with
    | some n => (n, s')
    | none => (.failed, s')
  | (.synthesizer, s) =>
    (.done, { s with iteration_count := s.iteration_count + 1, current_agent := "synthesizer" })
  | (.done, s) => (.done, s)
  | (.failed, s) => (.failed, s)
  | (w, s) =>
    let name : String := match w with
      | .calendar => "calendar" | .email => "email" | .research => "research"
      | .task_agent => "task" | .analytics => "analytics" | .pdf => "pdf"
      | _ => ""
    let s' := { s with
      iteration_count := s.iteration_count + 1
      next_agent := inp.worker_next_agent
      current_agent := name
      remaining_delegations := inp.delegations }
    match edgeTarget (route_after_worker maxIter s') with
    | some n => (n, s')
    | none => (.failed, s')

/-- The initial configuration of `run_agent_workflow` (graph.py lines
281-296): entry point `orchestrator`, `iteration_count = 0`. -/
def gInit : GNode × GState :=
  (.orchestrator, ⟨0, false, none, "", []⟩)

/-- The configuration after `n` transitions driven by the environment
trace `inputs`. -/
def gRun (maxIter : Nat) (inputs : Nat → StepInput) : Nat → GNode × GState
  | 0 => gInit
  | n + 1 => gStep maxIter (inputs n) (gRun maxIter inputs n)

/-! ## Character-level scanners (calendar_agent.py regex layer)

These model the CPython `re` behaviour of the specific patterns used by
`CalendarAgent` (leftmost search, ordered alternation, greedy quantifiers
with backtracking).  `\w`/`\s`/case folding are modelled over ASCII, which
covers all keyword sets involved. -/

/-- ASCII letter. -/
def isAsciiAlpha (c : Char) : Bool := ('A' ≤ c && c ≤ 'Z') || ('a' ≤ c && c ≤ 'z')

/-- ASCII upper-case letter (`[A-Z]`). -/
def isUpperAlpha (c : Char) : Bool := 'A' ≤ c && c ≤ 'Z'

/-- ASCII digit (`\d`). -/
def isAsciiDigit (c : Char) : Bool := '0' ≤ c && c ≤ '9'

/-- Python `\w` (ASCII part). -/
def isWordChar (c : Char) : Bool := isAsciiAlpha c || isAsciiDigit c || c == '_'

/-- `[A-Za-z0-9._%+-]` (the email local part). -/
def isLocalChar (c : Char) : Bool :=
  isAsciiAlpha c || isAsciiDigit c || c == '.' || c == '_' || c == '%' || c == '+' || c == '-'

/-- `[A-Za-z0-9.-]` (the email domain part). -/
def isDomChar (c : Char) : Bool := isAsciiAlpha c || isAsciiDigit c || c == '.' || c == '-'

/-- `[A-Za-z'\-\.]` (the bare-name word body). -/
def isNameChar (c : Char) : Bool := isAsciiAlpha c || c == '\'' || c == '-' || c == '.'

/-- `[A-Za-z'-]` (the titled-name word body). -/
def isNameChar2 (c : Char) : Bool := isAsciiAlpha c || c == '\'' || c == '-'

/-- Case-insensitive prefix test against a lowercase pattern. -/
def ciPrefix : List Char → List Char → Bool
  | [], _ => true
  | _ :: _, [] => false
  | p :: ps, c :: cs => p == c.toLower && ciPrefix ps cs

/-- Length of the leading `[A-Za-z]` run. -/
def lettersRun (cs : List Char) : Nat := (cs.takeWhile isAsciiAlpha).length

/-- Attempt `[A-Za-z0-9._%+-]+@[A-Za-z0-9.-]+\.[A-Za-z]{2,}` anchored at the
current position, with the engine's greedy/backtracking choice (longest
domain split whose dot is followed by at least two letters). -/
def matchEmailAt (cs : List Char) : Option (List Char × List Char) :=
  let loc := cs.takeWhile isLocalChar
  if loc.isEmpty then none
  else match cs.drop loc.length with
    | '@' :: rest =>
      let R := rest.takeWhile isDomChar
      match (List.range R.length).reverse.find? (fun k =>
          decide (1 ≤ k) && R.getD k ' ' == '.' && decide (2 ≤ lettersRun (R.drop (k + 1)))) with
      | some k =>
        let total := loc.length + 1 + k + 1 + lettersRun (R.drop (k + 1))
        some (cs.take total, cs.drop total)
      | none => none
    | _ => none

/-- Leftmost email match in the remaining text. -/
def findEmailScan : List Char → Option (List Char × List Char)
  | [] => none
  | c :: cs =>
    match matchEmailAt (c :: cs) with
    | some r => some r
    | none => findEmailScan cs

/-- Fuelled `re.findall` loop (the fuel `|cs|` always suffices). -/
def extractEmailsAux : Nat → List Char → List String
  | 0, _ => []
  | fuel + 1, cs =>
    match findEmailScan cs with
    | none => []
    | some (m, rest) => String.mk m :: extractEmailsAux fuel rest

/-- `CalendarAgent._extract_emails` (calendar_agent.py lines 371-374). -/
def extract_emails (s : String) : List String := extractEmailsAux s.data.length s.data

/-- `CalendarAgent._extract_email` (calendar_agent.py lines 367-369). -/
def extract_email (s : String) : Option String := (extract_emails s).head?

/-- Backtracking for `\s{minWs,}([^X]+)`: the engine consumes as much leading
whitespace as possible while leaving a non-excluded first group character. -/
def groupAfterWs (minWs : Nat) (excl : Char → Bool) (cs : List Char) : Option (List Char) :=
  let ws := cs.takeWhile isPyWs
  match (List.range (ws.length + 1)).reverse.find? (fun k =>
      decide (minWs ≤ k) && (match (cs.drop k).head? with
        | some ch => !excl ch
        | none => false)) with
  | some k => some ((cs.drop k).takeWhile (fun ch => !excl ch))
  | none => none

/-- `[^,;\n]` exclusion set of the labelled-name pattern. -/
def exclLabeled (c : Char) : Bool := c == ',' || c == ';' || c == '\n'

/-- `[^,.;\n]` exclusion set of the "name is" pattern. -/
def exclPhrase (c : Char) : Bool := c == ',' || c == '.' || c == ';' || c == '\n'

/-- `[^,.;]` exclusion set of the "attendee is" pattern. -/
def exclNamed (c : Char) : Bool := c == ',' || c == '.' || c == ';'

/-- Tail of `(?:attendee name|name)\s*[:\-]\s*([^,;\n]+)` after the keyword. -/
def labeledTail (cs : List Char) : Option (List Char) :=
  match cs.dropWhile isPyWs with
  | c :: cs2 => if c == ':' || c == '-' then groupAfterWs 0 exclLabeled cs2 else none
  | [] => none

/-- Ordered keyword alternation followed by a tail matcher, at one position. -/
def kwAlt (kws : List (List Char)) (tail : List Char → Option (List Char))
    (cs : List Char) : Option (List Char) :=
  kws.firstM (fun kw => if ciPrefix kw cs then tail (cs.drop kw.length) else none)

/-- Leftmost scan applying `f` at every start position (re.search). -/
def scanSearch (f : List Char → Option α) : List Char → Option α
  | [] => f []
  | c :: cs =>
    match f (c :: cs) with
    | some r => some r
    | none => scanSearch f cs

/-- `re.search(r"(?:attendee name|name)\s*[:\-]\s*([^,;\n]+)", text, re.I)`,
returning the raw group (calendar_agent.py lines 395-399). -/
def labeledSearch (cs : List Char) : Option (List Char) :=
  scanSearch (kwAlt ["attendee name".data, "name".data] labeledTail) cs

/-- `re.search(r"(?:his name is|her name is|their name is|name is)\s+([^,.;\n]+)", text, re.I)`
(calendar_agent.py lines 402-406). -/
def phraseSearch (cs : List Char) : Option (List Char) :=
  scanSearch (kwAlt ["his name is".data, "her name is".data, "their name is".data, "name is".data]
    (groupAfterWs 1 exclPhrase)) cs

/-- `re.search(r"(?:name is|attendee name is|attendee is)\s+([^,.;]+)", text, re.I)`
(calendar_agent.py lines 415-419). -/
def namedSearch (cs : List Char) : Option (List Char) :=
  scanSearch (kwAlt ["name is".data, "attendee name is".data, "attendee is".data]
    (groupAfterWs 1 exclNamed)) cs

/-- `[A-Z][A-Za-z'-]+` at the current position, returning the word and rest. -/
def capWordAt (cs : List Char) : Option (List Char × List Char) :=
  match cs with
  | c :: rest =>
    if isUpperAlpha c then
      let run := rest.takeWhile isNameChar2
      if run.isEmpty then none else some (c :: run, rest.drop run.length)
    else none
  | [] => none

/-- Greedy `(?:\s+[A-Z][A-Za-z'-]+){0,n}`: the consumed extension. -/
def titledReps : Nat → List Char → List Char
  | 0, _ => []
  | n + 1, cs =>
    let ws := cs.takeWhile isPyWs
    if ws.isEmpty then []
    else match capWordAt (cs.drop ws.length) with
      | some (w, rest) => ws ++ w ++ titledReps n rest
      | none => []

/-- Tail of the titled-name pattern after the title keyword:
`\.?\s+([A-Z][A-Za-z'-]+(?:\s+[A-Z][A-Za-z'-]+){0,3})`. -/
def titledTail (cs : List Char) : Option (List Char) :=
  let attempt := fun (cs2 : List Char) =>
    let ws := cs2.takeWhile isPyWs
    if ws.isEmpty then none
    else match capWordAt (cs2.drop ws.length) with
      | some (w, rest) => some (w ++ titledReps 3 rest)
      | none => none
  match cs with
  | '.' :: rest =>
    (match attempt rest with
     | some g2 => some g2
     | none => attempt cs)
  | _ => attempt cs

/-- Leftmost scan carrying the previous character (for `\b` assertions). -/
def scanSearchB (f : Option Char → List Char → Option α) :
    Option Char → List Char → Option α
  | prev, [] => f prev []
  | prev, c :: cs =>
    match f prev (c :: cs) with
    | some r => some r
    | none => scanSearchB f (some c) cs

/-- `re.search(r"\b(Mr|Ms|Mrs|Dr|Prof)\.?\s+([A-Z][A-Za-z'-]+(?:\s+...){0,3})", text)`
(case-sensitive; calendar_agent.py lines 409-414).  Returns `group(1) ++ " " ++ group(2)`. -/
def titledSearch (cs : List Char) : Option String :=
  scanSearchB (fun prev cs0 =>
    if (match prev with | some p => !isWordChar p | none => true) then
      ["Mr".data, "Ms".data, "Mrs".data, "Dr".data, "Prof".data].firstM (fun kw =>
        if kw.isPrefixOf cs0 then
          match titledTail (cs0.drop kw.length) with
          | some g2 => some (String.mk kw ++ " " ++ String.mk g2)
          | none => none
        else none)
    else none) none cs

/-- The affirmative phrase set of `CalendarAgent._is_confirmation`. -/
def confirmPhrases : List String :=
  ["confirm", "confirmed", "yes", "yep", "yeah", "sure", "ok", "okay", "approve",
   "go ahead", "sounds good", "book it", "do it", "please do"]

/-- One position of the `\b(...)\b` confirmation search. -/
def confirmAt (prev : Option Char) (cs : List Char) : Bool :=
  (match prev with | some p => !isWordChar p | none => true) &&
  confirmPhrases.any (fun ph =>
    ciPrefix ph.data cs &&
    (match (cs.drop ph.data.length).head? with
     | some c => !isWordChar c
     | none => true))

/-- Recursive scan for `confirmAt`. -/
def confirmScan : Option Char → List Char → Bool
  | prev, [] => confirmAt prev []
  | prev, c :: cs => confirmAt prev (c :: cs) || confirmScan (some c) cs

/-- `CalendarAgent._is_confirmation` (calendar_agent.py lines 640-647):
a word-boundary search for an affirmative phrase in the stripped text. -/
def is_confirmation (text : String) : Bool := confirmScan none (pstrip text).data

/-- `CalendarAgent._is_schedule_request` (calendar_agent.py lines 602-611). -/
def is_schedule_request (text : String) : Bool :=
  ["schedule", "book", "meeting", "appointment", "calendar", "invite"].any
    (fun k => strContainsSub (slower text) k)

/-- The scheduling-noun blocklist of `_extract_attendee_name`
(calendar_agent.py lines 379-394). -/
def non_name_terms : List String :=
  ["am", "meeting", "sync", "kickoff", "review", "standup", "retro", "planning",
   "pm", "demo", "update", "check-in", "checkin", "status"]

/-- The leading connective stopwords of the email-clause branch
(calendar_agent.py lines 428-443). -/
def connective_stopwords : List String :=
  ["invite", "inviting", "schedule", "scheduling", "meeting", "meet", "with",
   "for", "book", "booking", "set", "setup", "set-up", "call"]

/-- `re.match(r"^[A-Za-z][A-Za-z'\-\.]*(?:\s+[A-Za-z][A-Za-z'\-\.]*){0,3}$", s)`:
one bare-name word. -/
def nameWordAt (cs : List Char) : Option (List Char) :=
  match cs with
  | c :: rest => if isAsciiAlpha c then some (rest.dropWhile isNameChar) else none
  | [] => none

/-- `$` of a non-MULTILINE pattern: end of string, or just before one final newline. -/
def atDollar (cs : List Char) : Bool := cs.isEmpty || cs == ['\n']

/-- Up to `reps` further whitespace-separated bare-name words, then `$`. -/
def nameShapeFrom : Nat → List Char → Bool
  | reps, cs =>
    match nameWordAt cs with
    | none => false
    | some rest =>
      atDollar rest ||
      (match reps with
       | 0 => false
       | r + 1 =>
         let ws := rest.takeWhile isPyWs
         !ws.isEmpty && nameShapeFrom r (rest.drop ws.length))

/-- The full-match test of the bare-name pattern (at most four words). -/
def nameShape (s : String) : Bool := nameShapeFrom 3 s.data

/-- `text.split(sep)[0]`: characters before the first occurrence of `sep`. -/
def splitFirst : List Char → List Char → List Char
  | [], _ => []
  | c :: cs, sep => if sep.isPrefixOf (c :: cs) then [] else c :: splitFirst cs sep

/-- `re.split(r"[.\n,;]", cs)[-1]`: the segment after the last clause delimiter. -/
def lastSeg (cs : List Char) : List Char :=
  (cs.reverse.takeWhile (fun c => !(c == '.' || c == '\n' || c == ',' || c == ';'))).reverse

/-- The `while words and words[0].lower() in stopwords` loop. -/
def dropStops : List String → List String
  | [] => []
  | w :: ws => if connective_stopwords.contains (slower w) then dropStops ws else w :: ws

/-- `words[-4:]`. -/
def lastN (n : Nat) (l : List String) : List String := l.drop (l.length - n)

/-- The final standalone branch of `_extract_attendee_name`
(calendar_agent.py lines 454-463). -/
def standaloneBranch (text : String) : Option String :=
  let stripped := pstrip text
  if stripped != ""
      && (extract_emails stripped).isEmpty
      && !is_confirmation stripped
      && !(stripped.data.any isAsciiDigit)
      && nameShape stripped
      && !(non_name_terms.any (fun term => strContainsSub (slower stripped) term))
  then some stripped else none

/-- `CalendarAgent._extract_attendee_name` (calendar_agent.py lines 376-464). -/
def extract_attendee_name (text : String) : Option String :=
  if text == "" then none
  else match labeledSearch text.data with
  | some grp => some (pstrip (String.mk grp))
  | none =>
    match phraseSearch text.data with
    | some grp => some (pstrip (String.mk grp))
    | none =>
      match titledSearch text.data with
      | some s => some (pstrip s)
      | none =>
        match namedSearch text.data with
        | some grp => some (pstrip (String.mk grp))
        | none =>
          let viaEmail : Option String :=
            match extract_email text with
            | some email =>
              let clause := pstrip (String.mk (lastSeg (splitFirst text.data email.data)))
              if clause != "" then
                let words := dropStops (wsplit clause)
                let candidate := pstrip (String.intercalate " " (lastN 4 words))
                if candidate != "" && decide ((wsplit candidate).length ≤ 4)
                    && !(non_name_terms.any (fun term => strContainsSub (slower candidate) term))
                    && nameShape candidate
                then some candidate
                else none
              else none
            | none => none
          match viaEmail with
          | some c => some c
          | none => standaloneBranch text

example : extract_emails "Invite Pam pam@x.com" = ["pam@x.com"] := by decide
example : extract_attendee_name "Invite Pam pam@x.com" = none := by decide
example : extract_attendee_name "Meet with Dana Fox dana@x.com" = some "Dana Fox" := by decide
example : is_confirmation "yes, send it please" = true := by decide
example : is_confirmation "confirm" = true := by decide
example : is_confirmation "confirmed!" = true := by decide
example : is_confirmation "okayish" = false := by decide
example : extract_attendee_name "his name is Raj Patel" = some "Raj Patel" := by decide
example : extract_attendee_name "Dr. Watson will join" = some "Dr Watson" := by decide

/-! ## Claim C4: freshness of the availability check -/

/-- A PendingAction whose cached check stores `duration_minutes = 60` while
the action itself has no `duration_minutes` key. -/
def c4NormalisedDetails : Details :=
  { emptyDetails with
      date := some "2025-01-10", time := some "10:00",
      availability_checked :=
        some ⟨some "2025-01-10", some "10:00", some 60, some "clear", some 0⟩ }

/-- C4 (counterexample): the claim requires the cached `duration_minutes` to
*exactly equal* the PendingAction's current field, but the code compares them
through `int(... or 60)`; a cached `60` against a missing current duration is
accepted as fresh although the fields differ (`some 60 ≠ none`). -/
theorem C4_counterexample :
    availability_check_is_fresh 100 5 c4NormalisedDetails = true
    ∧ Option.map AvailCheck.duration_minutes c4NormalisedDetails.availability_checked
        = some (some 60)
    ∧ c4NormalisedDetails.duration_minutes = none
    ∧ (some 60 : Option Nat) ≠ (none : Option Nat) := by decide

/-- C4 (amended): the freshness predicate returns true only if the cached
date and time exactly equal the current fields, the durations agree after the
`or 60` normalisation (missing or zero ↦ 60), and the parsed timestamp is at
most 5 minutes (300 s) before `now`; in particular a check whose timestamp is
older than 5 minutes (`now - ts > 300`) is never treated as fresh. -/
theorem C4_freshness_amended (now : Int) (d : Details)
    (h : availability_check_is_fresh now 5 d = true) :
    ∃ c, d.availability_checked = some c ∧ c.date = d.date ∧ c.time = d.time
      ∧ effDur c.duration_minutes = effDur d.duration_minutes
      ∧ ∃ ts, c.checked_at = some ts ∧ now - ts ≤ 5 * 60 := by
  unfold availability_check_is_fresh at h
  cases hav : d.availability_checked with
  | none => simp only [hav] at h; exact absurd h (by simp)
  | some c =>
    simp only [hav] at h
    refine ⟨c, rfl, ?_⟩
    cases hts : c.checked_at with
    | none => simp only [hts] at h; simp at h
    | some ts =>
      simp only [hts] at h
      split at h
      · simp at h
      · split at h
        · simp at h
        · split at h
          · simp at h
          · rename_i h1 h2 h3
            simp only [bne_iff_ne, ne_eq, not_not] at h1 h2 h3
            exact ⟨h1, h2, h3, ts, rfl, of_decide_eq_true h⟩

/-- The concrete input of the witness for `C4_freshness_amended`. -/
def c4WitnessDetails : Details :=
  { emptyDetails with
      date := some "2025-01-10", time := some "10:00", duration_minutes := some 30,
      availability_checked :=
        some ⟨some "2025-01-10", some "10:00", some 30, some "clear", some 40⟩ }

/-- Witness for `C4_freshness_amended` at a concrete fresh check. -/
theorem C4_freshness_witness :
    ∃ c, c4WitnessDetails.availability_checked = some c
      ∧ c.date = c4WitnessDetails.date ∧ c.time = c4WitnessDetails.time
      ∧ effDur c.duration_minutes = effDur c4WitnessDetails.duration_minutes
      ∧ ∃ ts, c.checked_at = some ts ∧ (90 : Int) - ts ≤ 5 * 60 :=
  C4_freshness_amended 90 c4WitnessDetails (by decide)

/-! ## Claim C7: missing-field prompt of the message (email) action -/

/-- The draft with recipient and subject present but no body. -/
def c7DraftNoBody : EmailContent := ⟨some "a@x.com", none, some "Update", none, none⟩

/-- C7 (counterexample): with only the body missing, the email agent's
response does not list exactly the missing fields — the appended prompt is
the fixed sentence "Please provide the recipient email and subject.", which
names the present field "subject" and never names "body". -/
theorem C7_counterexample :
    (email_draft_turn none c7DraftNoBody "Draft ready.").pending_email = none
    ∧ truthy c7DraftNoBody.subject = true
    ∧ strContainsSub (email_draft_turn none c7DraftNoBody "Draft ready.").response.message
        "subject" = true
    ∧ truthy c7DraftNoBody.body = false
    ∧ strContainsSub (email_draft_turn none c7DraftNoBody "Draft ready.").response.message
        "body" = false := by decide

/-- C7 (amended): when any of recipient, subject or body is absent from the
composed draft, the agent appends the fixed prompt "Please provide the
recipient email and subject." (not an itemised list of exactly the missing
fields) and the draft is not stored — the `pending_email` metadata is left
as it was; the draft is stored exactly when all three are present. -/
theorem C7_missing_fields_amended (stored : Option EmailContent)
    (lc : EmailContent) (ur : String) :
    (¬ (truthy lc.to_email ∧ truthy lc.subject ∧ truthy lc.body) →
      (email_draft_turn stored lc ur).pending_email = stored
      ∧ ∃ pre, (email_draft_turn stored lc ur).response.message
          = pre ++ "\n\nPlease provide the recipient email and subject.")
    ∧ ((truthy lc.to_email ∧ truthy lc.subject ∧ truthy lc.body) →
      (email_draft_turn stored lc ur).pending_email
        = some ⟨lc.to_email, lc.to_name, lc.subject, lc.body, lc.tone⟩) := by
  unfold email_draft_turn
  constructor
  · intro hmiss
    have hcond : (truthy lc.to_email && truthy lc.subject && truthy lc.body) = false := by
      rcases Bool.eq_false_or_eq_true (truthy lc.to_email) with h1 | h1 <;>
        rcases Bool.eq_false_or_eq_true (truthy lc.subject) with h2 | h2 <;>
          rcases Bool.eq_false_or_eq_true (truthy lc.body) with h3 | h3 <;>
            simp_all
    simp only [hcond]
    exact ⟨rfl, _, rfl⟩
  · intro hall
    have hcond : (truthy lc.to_email && truthy lc.subject && truthy lc.body) = true := by
      simp [hall.1, hall.2.1, hall.2.2]
    simp only [hcond]
    rfl

/-- Witness for `C7_missing_fields_amended`: body missing on one side, all
fields present on the other. -/
theorem C7_missing_fields_witness :
    ((¬ (truthy c7DraftNoBody.to_email ∧ truthy c7DraftNoBody.subject ∧ truthy c7DraftNoBody.body) →
      (email_draft_turn none c7DraftNoBody "Draft ready.").pending_email = none
      ∧ ∃ pre, (email_draft_turn none c7DraftNoBody "Draft ready.").response.message
          = pre ++ "\n\nPlease provide the recipient email and subject.")
    ∧ ((truthy c7DraftNoBody.to_email ∧ truthy c7DraftNoBody.subject ∧ truthy c7DraftNoBody.body) →
      (email_draft_turn none c7DraftNoBody "Draft ready.").pending_email
        = some ⟨c7DraftNoBody.to_email, c7DraftNoBody.to_name, c7DraftNoBody.subject,
            c7DraftNoBody.body, c7DraftNoBody.tone⟩))
    ∧ ((email_draft_turn none c7DraftNoBody "Draft ready.").pending_email = none
        ∧ ∃ pre, (email_draft_turn none c7DraftNoBody "Draft ready.").response.message
            = pre ++ "\n\nPlease provide the recipient email and subject.") :=
  ⟨C7_missing_fields_amended none c7DraftNoBody "Draft ready.",
   (C7_missing_fields_amended none c7DraftNoBody "Draft ready.").1 (by decide)⟩

/-! ## Claim C8: delivery failure retains the PendingAction -/

/-- C8: on a delivery failure the agent returns an error outcome carrying the
failure text and the PendingAction is retained unchanged in the conversation
metadata; the PendingAction is deleted only on successful delivery.  Both the
email agent (`EmailSendError` from `send_email`) and the calendar agent
(`CalendarSendError` from `create_calendar_event_details`) behave this way. -/
theorem C8_failure_retains_pending :
    (∀ (env : EmailEnv) (stored : Option EmailContent) (exc : String),
      env.send_result = some exc →
        (send_pending_email env stored).response.status = "error"
        ∧ (send_pending_email env stored).response.message = "I couldn't send the email: " ++ exc
        ∧ (send_pending_email env stored).pending_email = stored)
    ∧ (∀ (env : EmailEnv) (stored : Option EmailContent),
      env.send_result = none → (send_pending_email env stored).pending_email = none)
    ∧ (∀ (env : CalEnv) (stored : Option Details) (d : Details) (exc : String),
      env.build_ok = true → env.create_event = .error exc →
        (send_pending_event env stored d).response.status = "error"
        ∧ (send_pending_event env stored d).response.message
            = "I couldn't create the calendar event: " ++ exc
        ∧ (send_pending_event env stored d).pending_event = stored)
    ∧ (∀ (env : CalEnv) (stored : Option Details) (d : Details) (r : String × String),
      env.build_ok = true → env.create_event = .ok r →
        (send_pending_event env stored d).pending_event = none) := by
  refine ⟨?_, ?_, ?_, ?_⟩
  · intro env stored exc hres
    unfold send_pending_email
    rw [hres]
    exact ⟨rfl, rfl, rfl⟩
  · intro env stored hres
    unfold send_pending_email
    rw [hres]
  · intro env stored d exc hbuild hcreate
    unfold send_pending_event
    rw [hbuild, hcreate]
    exact ⟨rfl, rfl, rfl⟩
  · intro env stored d r hbuild hcreate
    obtain ⟨link, meet_link⟩ := r
    unfold send_pending_event
    rw [hbuild, hcreate]
    rfl

/-- The calendar environment of the C8 witness: event creation fails. -/
def c8FailEnv : CalEnv :=
  ⟨0, true, "", .ok false, .error "boom", fun _ => none⟩

/-- A complete pending event used by several witnesses. -/
def cDetailsComplete : Details :=
  { emptyDetails with
      title := some "Sync", date := some "2025-01-10", time := some "10:00",
      attendees := [⟨some "Bob", some "bob@x.com"⟩],
      attendee_name := some "Bob", attendee_email := some "bob@x.com" }

/-- Witness for `C8_failure_retains_pending` at concrete failing collaborators. -/
theorem C8_failure_retains_pending_witness :
    ((send_pending_email ⟨some "smtp down"⟩ (some c7DraftNoBody)).response.status = "error"
      ∧ (send_pending_email ⟨some "smtp down"⟩ (some c7DraftNoBody)).response.message
          = "I couldn't send the email: " ++ "smtp down"
      ∧ (send_pending_email ⟨some "smtp down"⟩ (some c7DraftNoBody)).pending_email
          = some c7DraftNoBody)
    ∧ ((send_pending_event c8FailEnv (some cDetailsComplete) cDetailsComplete).response.status = "error"
      ∧ (send_pending_event c8FailEnv (some cDetailsComplete) cDetailsComplete).response.message
          = "I couldn't create the calendar event: " ++ "boom"
      ∧ (send_pending_event c8FailEnv (some cDetailsComplete) cDetailsComplete).pending_event
          = some cDetailsComplete) :=
  ⟨C8_failure_retains_pending.1 ⟨some "smtp down"⟩ (some c7DraftNoBody) "smtp down" rfl,
   C8_failure_retains_pending.2.2.1 c8FailEnv (some cDetailsComplete) cDetailsComplete "boom" rfl rfl⟩

/-! ## Claim C10: the email send gate is an exact-phrase test -/

/-- The draft path of the email agent never invokes `send_email`. -/
theorem emailDraftNeverSends (stored : Option EmailContent) (lc : EmailContent)
    (ur : String) : (email_draft_turn stored lc ur).send_attempted = false := by
  unfold email_draft_turn
  dsimp only
  split <;> rfl

/-- C10: the email agent triggers `send_email` exactly when a pending email
exists and the lowercased, stripped turn text equals one of the eight fixed
phrases; a sentence that merely contains an affirmative word (for example
"yes, send it please") does not send — while the calendar agent's
confirmation test, a word-boundary search, accepts that same sentence. -/
theorem C10_send_gate :
    (∀ (env : EmailEnv) (pending : Option EmailContent) (text : String)
        (lc : EmailContent) (ur : String),
      (email_process env pending text lc ur).send_attempted = true ↔
        (pending.isSome = true ∧ email_is_confirmation text = true))
    ∧ (∀ text : String, email_is_confirmation text = true ↔
        pstrip (slower text) ∈
          ["send", "send it", "yes", "y", "confirm", "go ahead", "please send", "send now"])
    ∧ email_is_confirmation "yes, send it please" = false
    ∧ is_confirmation "yes, send it please" = true := by
  refine ⟨?_, ?_, by decide, by decide⟩
  · intro env pending text lc ur
    cases pending with
    | none =>
      simp only [email_process, Option.isSome_none, Bool.false_eq_true, false_and, iff_false]
      rw [emailDraftNeverSends]
      simp
    | some p =>
      simp only [email_process, Option.isSome_some, true_and]
      by_cases hconf : email_is_confirmation text = true
      · simp only [hconf, if_true, iff_true]
        unfold send_pending_email
        split <;> rfl
      · rw [Bool.not_eq_true] at hconf
        simp only [hconf, Bool.false_eq_true, if_false, iff_false]
        split
        · simp
        · rw [emailDraftNeverSends]; simp
  · intro text
    unfold email_is_confirmation
    simp [List.elem_iff]

/-- Witness for `C10_send_gate`: a stored pending email plus the exact
phrase "send it" triggers the send; the pending plus "yes, send it please"
does not. -/
theorem C10_send_gate_witness :
    (email_process ⟨none⟩ (some c7DraftNoBody) "Send it " c7DraftNoBody "x").send_attempted = true
    ∧ (email_process ⟨none⟩ (some c7DraftNoBody) "yes, send it please" c7DraftNoBody "x").send_attempted
        = false := by
  constructor
  · exact (C10_send_gate.1 ⟨none⟩ (some c7DraftNoBody) "Send it " c7DraftNoBody "x").2
      ⟨by decide, by decide⟩
  · rw [← Bool.not_eq_true]
    intro hs
    have := (C10_send_gate.1 ⟨none⟩ (some c7DraftNoBody) "yes, send it please" c7DraftNoBody "x").1 hs
    have hfalse := C10_send_gate.2.2.1
    rw [this.2] at hfalse
    cases hfalse

/-! ## Claim C2: the iteration bound of the workflow controller -/

/-- While the run is at a worker/router node, the iteration counter equals
the number of transitions taken so far. -/
theorem gRun_count_eq (m : Nat) (inputs : Nat → StepInput) :
    ∀ n, isWorkerStep (gRun m inputs n).1 = true →
      (gRun m inputs n).2.iteration_count = n := by
  intro n
  induction n with
  | zero => intro _; rfl
  | succ n ih =>
    intro hw
    rcases hcfg : gRun m inputs n with ⟨node, s⟩
    have hstep : gRun m inputs (n + 1) = gStep m (inputs n) (node, s) := by
      rw [gRun, hcfg]
    rw [hstep] at hw ⊢
    have hcount : isWorkerStep node = true → s.iteration_count = n := by
      intro h
      have := ih (by rw [hcfg]; exact h)
      rwa [hcfg] at this
    cases node <;> simp only [gStep] at hw ⊢ <;>
      first
      | (split at hw <;> simp_all [isWorkerStep])
      | simp_all [isWorkerStep]

/-- Once the incremented counter reaches the bound, `route_after_orchestrator`
returns "synthesizer" (graph.py lines 162-164). -/
theorem routeOrchAtBound (m : Nat) (st : GState) (h : m ≤ st.iteration_count) :
    route_after_orchestrator m st = "synthesizer" := if_pos h

/-- Once the incremented counter reaches the bound, `route_after_worker`
returns "synthesizer" (graph.py lines 181-183). -/
theorem routeWorkerAtBound (m : Nat) (st : GState) (h : m ≤ st.iteration_count) :
    route_after_worker m st = "synthesizer" := if_pos h

/-- A worker/router node can only be current strictly before the iteration
bound is reached (provided the bound is at least 1, as configured). -/
theorem gRun_worker_lt (m : Nat) (inputs : Nat → StepInput) (hm : 1 ≤ m) :
    ∀ n, isWorkerStep (gRun m inputs n).1 = true → n < m := by
  intro n
  cases n with
  | zero => intro _; exact hm
  | succ n =>
    intro hw
    rcases hcfg : gRun m inputs n with ⟨node, s⟩
    have hstep : gRun m inputs (n + 1) = gStep m (inputs n) (node, s) := by
      rw [gRun, hcfg]
    rw [hstep] at hw
    by_contra hge
    push_neg at hge
    cases node <;> simp only [gStep] at hw
    case synthesizer => simp [isWorkerStep] at hw
    case done => simp [isWorkerStep] at hw
    case failed => simp [isWorkerStep] at hw
    case orchestrator =>
      have h2 := gRun_count_eq m inputs n (by rw [hcfg]; rfl)
      rw [hcfg] at h2
      rw [show s.iteration_count = n from h2] at hw
      rw [routeOrchAtBound m _ (show m ≤ n + 1 from hge)] at hw
      simp [edgeTarget, isWorkerStep] at hw
    all_goals
      have h2 := gRun_count_eq m inputs n (by rw [hcfg]; rfl)
      rw [hcfg] at h2
      rw [show s.iteration_count = n from h2] at hw
      rw [routeWorkerAtBound m _ (show m ≤ n + 1 from hge)] at hw
      simp [edgeTarget, isWorkerStep] at hw

/-- The synthesizer is only ever reached from a worker/router node. -/
theorem synth_from_worker (m : Nat) (inputs : Nat → StepInput) (n : Nat)
    (h : (gRun m inputs (n + 1)).1 = GNode.synthesizer) :
    isWorkerStep (gRun m inputs n).1 = true := by
  rcases hcfg : gRun m inputs n with ⟨node, s⟩
  have hstep : gRun m inputs (n + 1) = gStep m (inputs n) (node, s) := by
    rw [gRun, hcfg]
  rw [hstep] at h
  cases node <;> simp only [gStep] at h <;> first
    | rfl
    | (exfalso; revert h; split <;> simp_all)
    | simp_all

/-- After `MAX + 1` transitions every run is terminal: the workflow has
reached END (or aborted on an unmapped route). -/
theorem gRun_terminal (m : Nat) (inputs : Nat → StepInput) (hm : 1 ≤ m) :
    ∀ n, m + 1 ≤ n →
      (gRun m inputs n).1 = GNode.done ∨ (gRun m inputs n).1 = GNode.failed := by
  intro n hn
  have hnw : ¬ isWorkerStep (gRun m inputs n).1 = true := by
    intro hw
    have := gRun_worker_lt m inputs hm n hw
    omega
  rcases hnode : (gRun m inputs n).1 with _ | _ | _ | _ | _ | _ | _ | _ | _ | _
  case synthesizer =>
    exfalso
    cases n with
    | zero => omega
    | succ k =>
      have hk := synth_from_worker m inputs k hnode
      have := gRun_worker_lt m inputs hm k hk
      omega
  all_goals simp_all [isWorkerStep]

/-- C2: for every environment trace, the workflow controller executes at most
`MAX_AGENT_ITERATIONS` worker/router steps; once the counter reaches the
bound both routing functions return "synthesizer"; and every run is terminal
after `MAX_AGENT_ITERATIONS + 1` transitions. -/
theorem C2_iteration_bound (inputs : Nat → StepInput) :
    (∀ n, isWorkerStep (gRun MAX_AGENT_ITERATIONS inputs n).1 = true →
      n < MAX_AGENT_ITERATIONS)
    ∧ (∀ n, ((Finset.range n).filter
        (fun k => isWorkerStep (gRun MAX_AGENT_ITERATIONS inputs k).1 = true)).card
        ≤ MAX_AGENT_ITERATIONS)
    ∧ (∀ n, MAX_AGENT_ITERATIONS + 1 ≤ n →
        (gRun MAX_AGENT_ITERATIONS inputs n).1 = GNode.done
        ∨ (gRun MAX_AGENT_ITERATIONS inputs n).1 = GNode.failed)
    ∧ (∀ s : GState, MAX_AGENT_ITERATIONS ≤ s.iteration_count →
        route_after_orchestrator MAX_AGENT_ITERATIONS s = "synthesizer"
        ∧ route_after_worker MAX_AGENT_ITERATIONS s = "synthesizer") := by
  have hm : 1 ≤ MAX_AGENT_ITERATIONS := by decide
  refine ⟨gRun_worker_lt _ inputs hm, ?_, gRun_terminal _ inputs hm, ?_⟩
  · intro n
    calc ((Finset.range n).filter
        (fun k => isWorkerStep (gRun MAX_AGENT_ITERATIONS inputs k).1 = true)).card
        ≤ (Finset.range MAX_AGENT_ITERATIONS).card := by
          apply Finset.card_le_card
          intro x hx
          rw [Finset.mem_filter] at hx
          exact Finset.mem_range.mpr (gRun_worker_lt _ inputs hm x hx.2)
      _ = MAX_AGENT_ITERATIONS := Finset.card_range _
  · intro s hs
    exact ⟨routeOrchAtBound _ s hs, routeWorkerAtBound _ s hs⟩

/-- An environment trace that always delegates onward (a routing cycle). -/
def c2CycleInputs : Nat → StepInput :=
  fun _ => ⟨false, some "calendar", some "email", ["research"]⟩

/-- Witness for `C2_iteration_bound` on a perpetual delegation cycle: step 3
is still a worker step and thus below the bound, the run is terminal at step
11, and a state at the bound routes to the synthesizer. -/
theorem C2_iteration_bound_witness :
    (3 < MAX_AGENT_ITERATIONS)
    ∧ ((gRun MAX_AGENT_ITERATIONS c2CycleInputs 11).1 = GNode.done
        ∨ (gRun MAX_AGENT_ITERATIONS c2CycleInputs 11).1 = GNode.failed)
    ∧ route_after_orchestrator MAX_AGENT_ITERATIONS ⟨10, false, some "calendar", "", []⟩
        = "synthesizer" :=
  ⟨(C2_iteration_bound c2CycleInputs).1 3 (by decide),
   (C2_iteration_bound c2CycleInputs).2.2.1 11 (by decide),
   ((C2_iteration_bound c2CycleInputs).2.2.2 ⟨10, false, some "calendar", "", []⟩
      (by decide)).1⟩

/-! ## Claim C3: date/time/duration changes invalidate both caches -/

/-- `apply_attendee_pairs` leaves everything but `attendees` unchanged. -/
theorem apply_attendee_pairs_core (d : Details) (ex : TurnExtraction) :
    (apply_attendee_pairs d ex).date = d.date
    ∧ (apply_attendee_pairs d ex).time = d.time
    ∧ (apply_attendee_pairs d ex).duration_minutes = d.duration_minutes
    ∧ (apply_attendee_pairs d ex).availability_checked = d.availability_checked
    ∧ (apply_attendee_pairs d ex).confirmation_snapshot = d.confirmation_snapshot := by
  unfold apply_attendee_pairs
  repeat' split
  all_goals exact ⟨rfl, rfl, rfl, rfl, rfl⟩

/-- `apply_email_field` leaves the time fields and caches unchanged. -/
theorem apply_email_field_core (d : Details) (ex : TurnExtraction) (ow : Bool) :
    (apply_email_field d ex ow).date = d.date
    ∧ (apply_email_field d ex ow).time = d.time
    ∧ (apply_email_field d ex ow).duration_minutes = d.duration_minutes
    ∧ (apply_email_field d ex ow).availability_checked = d.availability_checked
    ∧ (apply_email_field d ex ow).confirmation_snapshot = d.confirmation_snapshot := by
  unfold apply_email_field
  repeat' split
  all_goals exact ⟨rfl, rfl, rfl, rfl, rfl⟩

/-- `apply_name_field` leaves the time fields and caches unchanged. -/
theorem apply_name_field_core (d : Details) (ex : TurnExtraction) (ow : Bool) :
    (apply_name_field d ex ow).date = d.date
    ∧ (apply_name_field d ex ow).time = d.time
    ∧ (apply_name_field d ex ow).duration_minutes = d.duration_minutes
    ∧ (apply_name_field d ex ow).availability_checked = d.availability_checked
    ∧ (apply_name_field d ex ow).confirmation_snapshot = d.confirmation_snapshot := by
  unfold apply_name_field
  repeat' split
  all_goals exact ⟨rfl, rfl, rfl, rfl, rfl⟩

/-- `apply_title_field` leaves the time fields and caches unchanged. -/
theorem apply_title_field_core (d : Details) (ex : TurnExtraction) (ow : Bool) :
    (apply_title_field d ex ow).date = d.date
    ∧ (apply_title_field d ex ow).time = d.time
    ∧ (apply_title_field d ex ow).duration_minutes = d.duration_minutes
    ∧ (apply_title_field d ex ow).availability_checked = d.availability_checked
    ∧ (apply_title_field d ex ow).confirmation_snapshot = d.confirmation_snapshot := by
  unfold apply_title_field
  repeat' split
  all_goals exact ⟨rfl, rfl, rfl, rfl, rfl⟩

/-- `apply_date_field` touches only `date`. -/
theorem apply_date_field_core (d : Details) (ex : TurnExtraction) (ow : Bool) :
    (apply_date_field d ex ow).time = d.time
    ∧ (apply_date_field d ex ow).duration_minutes = d.duration_minutes
    ∧ (apply_date_field d ex ow).availability_checked = d.availability_checked
    ∧ (apply_date_field d ex ow).confirmation_snapshot = d.confirmation_snapshot := by
  unfold apply_date_field
  repeat' split
  all_goals exact ⟨rfl, rfl, rfl, rfl⟩

/-- `apply_time_field` touches only `time`. -/
theorem apply_time_field_core (d : Details) (ex : TurnExtraction) (ow : Bool) :
    (apply_time_field d ex ow).date = d.date
    ∧ (apply_time_field d ex ow).duration_minutes = d.duration_minutes
    ∧ (apply_time_field d ex ow).availability_checked = d.availability_checked
    ∧ (apply_time_field d ex ow).confirmation_snapshot = d.confirmation_snapshot := by
  unfold apply_time_field
  repeat' split
  all_goals exact ⟨rfl, rfl, rfl, rfl⟩

/-- `apply_notes_field` leaves the time fields and caches unchanged. -/
theorem apply_notes_field_core (d : Details) (ex : TurnExtraction) :
    (apply_notes_field d ex).date = d.date
    ∧ (apply_notes_field d ex).time = d.time
    ∧ (apply_notes_field d ex).duration_minutes = d.duration_minutes
    ∧ (apply_notes_field d ex).availability_checked = d.availability_checked
    ∧ (apply_notes_field d ex).confirmation_snapshot = d.confirmation_snapshot := by
  unfold apply_notes_field
  repeat' split
  all_goals exact ⟨rfl, rfl, rfl, rfl, rfl⟩

/-- The whole field-application step never touches `duration_minutes`,
`availability_checked` or `confirmation_snapshot`. -/
theorem apply_fields_core (d : Details) (ex : TurnExtraction) (ow : Bool) :
    (apply_extracted_fields d ex ow).duration_minutes = d.duration_minutes
    ∧ (apply_extracted_fields d ex ow).availability_checked = d.availability_checked
    ∧ (apply_extracted_fields d ex ow).confirmation_snapshot = d.confirmation_snapshot := by
  unfold apply_extracted_fields
  obtain ⟨-, -, h1, h2, h3⟩ := apply_attendee_pairs_core d ex
  obtain ⟨-, -, h4, h5, h6⟩ := apply_email_field_core (apply_attendee_pairs d ex) ex ow
  obtain ⟨-, -, h7, h8, h9⟩ :=
    apply_name_field_core (apply_email_field (apply_attendee_pairs d ex) ex ow) ex ow
  obtain ⟨-, -, h10, h11, h12⟩ :=
    apply_title_field_core
      (apply_name_field (apply_email_field (apply_attendee_pairs d ex) ex ow) ex ow) ex ow
  obtain ⟨-, h14, h15, h15b⟩ :=
    apply_date_field_core
      (apply_title_field
        (apply_name_field (apply_email_field (apply_attendee_pairs d ex) ex ow) ex ow)
        ex ow) ex ow
  obtain ⟨-, h16, h17, h18⟩ :=
    apply_time_field_core
      (apply_date_field
        (apply_title_field
          (apply_name_field (apply_email_field (apply_attendee_pairs d ex) ex ow) ex ow)
          ex ow) ex ow) ex ow
  obtain ⟨-, -, h19, h20, h21⟩ :=
    apply_notes_field_core
      (apply_time_field
        (apply_date_field
          (apply_title_field
            (apply_name_field (apply_email_field (apply_attendee_pairs d ex) ex ow) ex ow)
            ex ow) ex ow) ex ow) ex
  exact ⟨by rw [h19, h16, h14, h10, h7, h4, h1],
         by rw [h20, h17, h15, h11, h8, h5, h2],
         by rw [h21, h18, h15b, h12, h9, h6, h3]⟩

/-- The attendee-normalisation tail of the turn (lines 123-139) never touches
the time fields or the caches. -/
theorem decision_details_core (pending history : Option Details) (ex : TurnExtraction) :
    (decision_details pending history ex).date = (details_after_invalidate pending history ex).date
    ∧ (decision_details pending history ex).time
        = (details_after_invalidate pending history ex).time
    ∧ (decision_details pending history ex).duration_minutes
        = (details_after_invalidate pending history ex).duration_minutes
    ∧ (decision_details pending history ex).availability_checked
        = (details_after_invalidate pending history ex).availability_checked
    ∧ (decision_details pending history ex).confirmation_snapshot
        = (details_after_invalidate pending history ex).confirmation_snapshot := by
  unfold decision_details
  dsimp only
  repeat' split
  all_goals exact ⟨rfl, rfl, rfl, rfl, rfl⟩

/-- C3: whenever the merged turn leaves the PendingAction with a different
date, time or `duration_minutes` than it had before the merge
(`details_after_history` is the pre-merge record), the decision record of the
same turn — the value every confirmation/send decision reads, and the value
stored at line 140 — carries neither `availability_checked` nor
`confirmation_snapshot`. -/
theorem C3_change_invalidates_caches (pending history : Option Details) (ex : TurnExtraction)
    (hchange :
      (decision_details pending history ex).date ≠ (details_after_history pending history).date
      ∨ (decision_details pending history ex).time ≠ (details_after_history pending history).time
      ∨ (decision_details pending history ex).duration_minutes
          ≠ (details_after_history pending history).duration_minutes) :
    (decision_details pending history ex).availability_checked = none
    ∧ (decision_details pending history ex).confirmation_snapshot = none := by
  obtain ⟨hd6date, hd6time, hd6dur, hd6av, hd6sn⟩ := decision_details_core pending history ex
  by_cases hc : time_fields_changed (details_after_apply pending history ex)
      (details_after_history pending history).date
      (details_after_history pending history).time
      (effDur (details_after_history pending history).duration_minutes) = true
  · have hinv : details_after_invalidate pending history ex
        = { details_after_apply pending history ex with
            availability_checked := none, confirmation_snapshot := none } := by
      unfold details_after_invalidate
      rw [if_pos hc]
    rw [hd6av, hd6sn, hinv]
    exact ⟨rfl, rfl⟩
  · exfalso
    rw [Bool.not_eq_true] at hc
    unfold time_fields_changed at hc
    simp only [Bool.or_eq_false_iff, bne_eq_false_iff_eq] at hc
    obtain ⟨⟨hdate, htime⟩, hdur⟩ := hc
    have hinv : details_after_invalidate pending history ex
        = details_after_apply pending history ex := by
      unfold details_after_invalidate
      rw [if_neg]
      rw [time_fields_changed]
      simp [hdate, htime, hdur]
    obtain ⟨hadur, -, -⟩ :=
      apply_fields_core (details_after_history pending history) ex true
    rcases hchange with h | h | h
    · exact h (by rw [hd6date, hinv, hdate])
    · exact h (by rw [hd6time, hinv, htime])
    · exact h (by rw [hd6dur, hinv]; exact hadur)

/-- The stored pending of the C3 witness: complete fields plus both caches. -/
def c3Pending : Details :=
  { cDetailsComplete with
      availability_checked :=
        some ⟨some "2025-01-10", some "10:00", some 60, some "clear", some 0⟩,
      confirmation_snapshot :=
        some ⟨some "2025-01-10", some "10:00", some 60, some "clear", some 0⟩ }

/-- A turn that reschedules the pending event to a new time. -/
def c3Turn : TurnExtraction :=
  ⟨[], none, none, none, some "15:00", none, "move it to 3 pm", none, [], false, false⟩

/-- Witness for `C3_change_invalidates_caches`: moving the pending event to
15:00 changes `time`, and the decision record of that turn has both caches
removed. -/
theorem C3_change_invalidates_caches_witness :
    (decision_details (some c3Pending) none c3Turn).availability_checked = none
    ∧ (decision_details (some c3Pending) none c3Turn).confirmation_snapshot = none :=
  C3_change_invalidates_caches (some c3Pending) none c3Turn (Or.inr (Or.inl (by decide)))

/-! ## Claim C1: a "conflict" availability check blocks a confirmation -/

/-- `_merge_missing_details` never touches the cached sub-records. -/
theorem details_after_history_avail (p : Details) (history : Option Details) :
    (details_after_history (some p) history).availability_checked
      = p.availability_checked := by
  unfold details_after_history
  cases history <;> rfl

/-- A turn whose scanners found no date leaves `date` unchanged. -/
theorem apply_date_unchanged (d : Details) (ex : TurnExtraction) (ow : Bool)
    (h : ex.parsed_date = none) :
    (apply_extracted_fields d ex ow).date = d.date := by
  unfold apply_extracted_fields
  have hd : ∀ d', apply_date_field d' ex ow = d' := by
    intro d'; unfold apply_date_field; rw [h]
  rw [(apply_notes_field_core _ ex).1, (apply_time_field_core _ ex ow).1, hd,
    (apply_title_field_core _ ex ow).1, (apply_name_field_core _ ex ow).1,
    (apply_email_field_core _ ex ow).1, (apply_attendee_pairs_core _ ex).1]

/-- A turn whose scanners found no time leaves `time` unchanged. -/
theorem apply_time_unchanged (d : Details) (ex : TurnExtraction) (ow : Bool)
    (h : ex.parsed_time = none) :
    (apply_extracted_fields d ex ow).time = d.time := by
  unfold apply_extracted_fields
  have ht : ∀ d', apply_time_field d' ex ow = d' := by
    intro d'; unfold apply_time_field; rw [h]
  rw [(apply_notes_field_core _ ex).2.1, ht, (apply_date_field_core _ ex ow).1,
    (apply_title_field_core _ ex ow).2.1, (apply_name_field_core _ ex ow).2.1,
    (apply_email_field_core _ ex ow).2.1, (apply_attendee_pairs_core _ ex).2.1]

/-- C1 (amended): if the stored scheduling PendingAction carries an
`availability_checked` record with status "conflict", then a confirmation
turn that supplies no new date or time — whatever its other content, however
old the conflict record is (`checked_at` is unconstrained), and whatever the
external collaborators would answer — never invokes
`create_calendar_event_details`, performs no conflict check and sends no
mail; the agent answers `needs_clarification`, and when no required field is
missing the answer is exactly the request to choose another date or time. -/
theorem C1_conflict_blocks_amended (env : CalEnv) (p : Details) (history : Option Details)
    (ex : TurnExtraction) (ac : AvailCheck)
    (hav : p.availability_checked = some ac) (hst : ac.status = some "conflict")
    (hconf : ex.is_confirmation = true)
    (hd : ex.parsed_date = none) (ht : ex.parsed_time = none) :
    ∃ o, calendar_process env (some p) history ex = some o
      ∧ o.create_called = false ∧ o.conflict_checked = false ∧ o.emails_attempted = []
      ∧ o.response.status = "needs_clarification"
      ∧ ((missing_required_fields (decision_details (some p) history ex)).isEmpty = true →
          o.response = conflictResponse) := by
  have hd2date : (details_after_apply (some p) history ex).date
      = (details_after_history (some p) history).date := by
    unfold details_after_apply
    exact apply_date_unchanged _ ex true hd
  have hd2time : (details_after_apply (some p) history ex).time
      = (details_after_history (some p) history).time := by
    unfold details_after_apply
    exact apply_time_unchanged _ ex true ht
  have hd2dur : (details_after_apply (some p) history ex).duration_minutes
      = (details_after_history (some p) history).duration_minutes := by
    unfold details_after_apply
    exact (apply_fields_core _ ex true).1
  have hd2avail : (details_after_apply (some p) history ex).availability_checked
      = some ac := by
    unfold details_after_apply
    rw [(apply_fields_core _ ex true).2.1, details_after_history_avail, hav]
  have hnochange : time_fields_changed (details_after_apply (some p) history ex)
      (details_after_history (some p) history).date
      (details_after_history (some p) history).time
      (effDur (details_after_history (some p) history).duration_minutes) = false := by
    unfold time_fields_changed
    rw [hd2date, hd2time, hd2dur]
    simp
  have hinv : details_after_invalidate (some p) history ex
      = details_after_apply (some p) history ex := by
    unfold details_after_invalidate
    rw [if_neg]
    simp [hnochange]
  have havail : (decision_details (some p) history ex).availability_checked = some ac := by
    rw [(decision_details_core (some p) history ex).2.2.2.1, hinv, hd2avail]
  unfold calendar_process
  rw [if_neg (by simp)]
  dsimp only
  rw [hconf]
  simp only [if_true]
  by_cases hm : (missing_required_fields (decision_details (some p) history ex)).isEmpty = true
  · rw [hm]
    simp only [Bool.not_true, Bool.false_eq_true, if_false]
    rw [havail]
    dsimp only
    rw [hst]
    simp only [beq_self_eq_true, if_true]
    exact ⟨_, rfl, rfl, rfl, rfl, rfl, fun _ => rfl⟩
  · rw [Bool.not_eq_true] at hm
    rw [hm]
    simp only [Bool.not_false, if_true]
    exact ⟨_, rfl, rfl, rfl, rfl, rfl, fun hcontra => absurd hcontra (by simp)⟩

/-- A stored pending event whose availability check recorded a conflict. -/
def c1Pending : Details :=
  { cDetailsComplete with
      availability_checked :=
        some ⟨some "2025-01-10", some "10:00", some 60, some "conflict", some 0⟩ }

/-- The scanner outcomes of the turn text "confirm at 3 pm": a confirmation
that also parses a new time. -/
def c1RescheduleTurn : TurnExtraction :=
  ⟨[], none, none, none, some "15:00", none, "confirm at 3 pm", none, [], true, false⟩

/-- Collaborators that report the new slot free and create the event. -/
def c1Env : CalEnv :=
  ⟨1000, true, "", .ok false, .ok ("https://cal/evt", ""), fun _ => none⟩

/-- C1 (counterexample): the claim as stated quantifies over *every* user
turn recognised as a confirmation.  A confirmation that also carries a new
time ("confirm at 3 pm") invalidates the conflict cache, re-checks the new
slot and — the collaborator reporting it free — does invoke
`create_calendar_event_details`, although the stored PendingAction carried a
"conflict" availability check. -/
theorem C1_counterexample :
    Option.map AvailCheck.status c1Pending.availability_checked = some (some "conflict")
    ∧ c1RescheduleTurn.is_confirmation = true
    ∧ Option.map CalendarOutcome.create_called
        (calendar_process c1Env (some c1Pending) none c1RescheduleTurn) = some true := by
  refine ⟨rfl, rfl, ?_⟩
  decide

/-- The scanner outcomes of the bare turn text "confirm". -/
def c1ConfirmTurn : TurnExtraction :=
  ⟨[], none, none, none, none, none, "confirm", none, [], true, false⟩

/-- Witness for `C1_conflict_blocks_amended`: a bare "confirm" after the
conflict leaves the event uncreated and asks for another date or time. -/
theorem C1_conflict_blocks_witness :
    ∃ o, calendar_process c1Env (some c1Pending) none c1ConfirmTurn = some o
      ∧ o.create_called = false ∧ o.conflict_checked = false ∧ o.emails_attempted = []
      ∧ o.response.status = "needs_clarification"
      ∧ ((missing_required_fields (decision_details (some c1Pending) none c1ConfirmTurn)).isEmpty
            = true → o.response = conflictResponse) :=
  C1_conflict_blocks_amended c1Env c1Pending none c1ConfirmTurn
    ⟨some "2025-01-10", some "10:00", some 60, some "conflict", some 0⟩
    rfl rfl rfl rfl rfl

/-! ## Claim C6: email uniqueness and name/email reconciliation -/

/-- The attendee list never holds two entries with the same non-empty email,
compared case-insensitively. -/
def EmailsUnique (l : List Att) : Prop :=
  l.Pairwise (fun x y => truthy x.email = true → truthy y.email = true →
    slower (oget x.email) ≠ slower (oget y.email))

/-- Members of `updateFirst p f l` are members of `l` or images under `f`. -/
theorem mem_updateFirst {p : Att → Bool} {f : Att → Att} {l : List Att} {y : Att}
    (h : y ∈ updateFirst p f l) : (∃ y0 ∈ l, y = f y0) ∨ y ∈ l := by
  induction l with
  | nil => cases h
  | cons a l ih =>
    unfold updateFirst at h
    by_cases hp : p a = true
    · rw [if_pos hp] at h
      rcases List.mem_cons.mp h with h | h
      · exact Or.inl ⟨a, List.mem_cons_self a l, h⟩
      · exact Or.inr (List.mem_cons_of_mem a h)
    · rw [if_neg hp] at h
      rcases List.mem_cons.mp h with h | h
      · exact Or.inr (h ▸ List.mem_cons_self a l)
      · rcases ih h with ⟨y0, hy0, hfy⟩ | hmem
        · exact Or.inl ⟨y0, List.mem_cons_of_mem a hy0, hfy⟩
        · exact Or.inr (List.mem_cons_of_mem a hmem)

/-- `updateFirst` preserves the length. -/
theorem updateFirst_length (p : Att → Bool) (f : Att → Att) (l : List Att) :
    (updateFirst p f l).length = l.length := by
  induction l with
  | nil => rfl
  | cons a l ih =>
    unfold updateFirst
    by_cases hp : p a = true
    · rw [if_pos hp]; rfl
    · rw [if_neg hp]
      simpa using ih

/-- If some element matches, `updateFirst` contains the image of a matching
element. -/
theorem updateFirst_mem_image {p : Att → Bool} {f : Att → Att} {l : List Att}
    (h : ∃ x ∈ l, p x = true) :
    ∃ x ∈ l, p x = true ∧ f x ∈ updateFirst p f l := by
  induction l with
  | nil => rcases h with ⟨x, hx, -⟩; cases hx
  | cons a l ih =>
    unfold updateFirst
    by_cases hp : p a = true
    · exact ⟨a, List.mem_cons_self a l, hp, by rw [if_pos hp]; exact List.mem_cons_self _ _⟩
    · rcases h with ⟨x, hx, hpx⟩
      rcases List.mem_cons.mp hx with rfl | hx'
      · exact absurd hpx hp
      · rcases ih ⟨x, hx', hpx⟩ with ⟨x0, hx0, hpx0, hmem⟩
        exact ⟨x0, List.mem_cons_of_mem a hx0, hpx0,
          by rw [if_neg hp]; exact List.mem_cons_of_mem a hmem⟩

/-- Email uniqueness survives `updateFirst` with an email-preserving update. -/
theorem unique_updateFirst_emailKeep {p : Att → Bool} {f : Att → Att} {l : List Att}
    (hf : ∀ x, (f x).email = x.email) (hU : EmailsUnique l) :
    EmailsUnique (updateFirst p f l) := by
  induction l with
  | nil => exact List.Pairwise.nil
  | cons a l ih =>
    rw [EmailsUnique, List.pairwise_cons] at hU
    obtain ⟨hhead, htail⟩ := hU
    unfold updateFirst
    by_cases hp : p a = true
    · rw [if_pos hp, EmailsUnique, List.pairwise_cons]
      refine ⟨?_, htail⟩
      intro y hy
      rw [hf a]
      exact hhead y hy
    · rw [if_neg hp, EmailsUnique, List.pairwise_cons]
      refine ⟨?_, ih htail⟩
      intro y hy
      rcases mem_updateFirst hy with ⟨y0, hy0, rfl⟩ | hy'
      · intro h1 h2
        have := hhead y0 hy0 h1
        rw [hf y0] at h2 ⊢
        exact this h2
      · exact hhead y hy'

/-- Email uniqueness survives `updateFirst` when every update either keeps
the email or sets it to a key that no list element carries. -/
theorem unique_updateFirst_newEmail {p : Att → Bool} {f : Att → Att} {l : List Att}
    (enew : Option String)
    (hf : ∀ x, (f x).email = x.email ∨ (f x).email = enew)
    (hkey : ∀ x ∈ l, slower (oget x.email) ≠ slower (oget enew))
    (hU : EmailsUnique l) : EmailsUnique (updateFirst p f l) := by
  induction l with
  | nil => exact List.Pairwise.nil
  | cons a l ih =>
    rw [EmailsUnique, List.pairwise_cons] at hU
    obtain ⟨hhead, htail⟩ := hU
    have hkeyl : ∀ x ∈ l, slower (oget x.email) ≠ slower (oget enew) := by
      intro x hx
      exact hkey x (List.mem_cons_of_mem a hx)
    unfold updateFirst
    by_cases hp : p a = true
    · rw [if_pos hp, EmailsUnique, List.pairwise_cons]
      refine ⟨?_, htail⟩
      intro y hy h1 h2
      rcases hf a with hfa | hfa
      · rw [hfa] at h1 ⊢
        exact hhead y hy h1 h2
      · rw [hfa] at h1 ⊢
        intro heq
        exact hkeyl y hy heq.symm
    · rw [if_neg hp, EmailsUnique, List.pairwise_cons]
      refine ⟨?_, ih hkeyl htail⟩
      intro y hy h1 h2
      rcases mem_updateFirst hy with ⟨y0, hy0, rfl⟩ | hy'
      · rcases hf y0 with hfy | hfy
        · rw [hfy] at h2 ⊢
          exact hhead y0 hy0 h1 h2
        · rw [hfy] at h2 ⊢
          exact fun heq => hkey a (List.mem_cons_self a l) heq
      · exact hhead y hy' h1 h2

/-- Email uniqueness survives appending an attendee whose key is new
(or whose email is falsy). -/
theorem unique_append_new (l : List Att) (b : Att)
    (hkey : truthy b.email = true → ∀ x ∈ l, slower (oget x.email) ≠ slower (oget b.email))
    (hU : EmailsUnique l) : EmailsUnique (l ++ [b]) := by
  rw [EmailsUnique, List.pairwise_append]
  refine ⟨hU, List.pairwise_singleton _ _, ?_⟩
  intro x hx y hy h1 h2
  rcases List.mem_singleton.mp hy with rfl
  exact hkey h2 x hx

/-- One `_merge_attendees` loop iteration preserves email uniqueness: every
branch either keeps all emails, sets an email whose key no entry carries, or
appends such an entry. -/
theorem mergeStep_unique (m : List Att) (a : Att) (hU : EmailsUnique m) :
    EmailsUnique (mergeStep m a) := by
  unfold mergeStep
  by_cases h0 : (!truthy a.name && !truthy a.email) = true
  · rw [if_pos h0]; exact hU
  · rw [if_neg h0]
    by_cases he : truthy a.email = true
    · rw [if_pos he]
      dsimp only
      cases hfind : m.find? (emailMatches (oget a.email)) with
      | some z =>
        dsimp only
        by_cases hn : truthy a.name = true
        · rw [if_pos hn]
          apply unique_updateFirst_emailKeep _ hU
          intro x
          by_cases hx : truthy x.name = true
          · rw [if_pos hx]
          · rw [if_neg hx]
        · rw [if_neg hn]; exact hU
      | none =>
        dsimp only
        have hkey : ∀ x ∈ m, slower (oget x.email) ≠ slower (oget a.email) := by
          intro x hx
          have hnm := List.find?_eq_none.mp hfind x hx
          simpa [emailMatches] using hnm
        by_cases h1 : (!truthy a.name && (m.countP nameOnly == 1)) = true
        · rw [if_pos h1]
          exact unique_updateFirst_newEmail a.email (fun _ => Or.inr rfl) hkey hU
        · rw [if_neg h1]
          by_cases h2 : (truthy a.name && (m.find? (nameMatches (oget a.name))).isSome) = true
          · rw [if_pos h2]
            refine unique_updateFirst_newEmail a.email ?_ hkey hU
            intro x
            by_cases hx : truthy x.email = true
            · rw [if_pos hx]; exact Or.inl rfl
            · rw [if_neg hx]; exact Or.inr rfl
          · rw [if_neg h2]
            exact unique_append_new m ⟨a.name, a.email⟩ (fun _ x hx => hkey x hx) hU
    · rw [if_neg he]
      by_cases h3 : (m.find? (nameMatches (oget a.name))).isSome = true
      · rw [if_pos h3]; exact hU
      · rw [if_neg h3]
        by_cases h4 : (m.countP emailOnly == 1) = true
        · rw [if_pos h4]
          exact unique_updateFirst_emailKeep (fun _ => rfl) hU
        · rw [if_neg h4]
          refine unique_append_new m ⟨a.name, none⟩ (fun hb _ _ => ?_) hU
          exact absurd hb (by simp [truthy])

/-- `_merge_attendees` preserves email uniqueness over its whole loop. -/
theorem merge_attendees_unique (A B : List Att) (hU : EmailsUnique A) :
    EmailsUnique (merge_attendees A B) := by
  unfold merge_attendees
  have hF : EmailsUnique (A.filter keepAtt) := List.Pairwise.filter _ hU
  suffices h : ∀ (L m : List Att), EmailsUnique m → EmailsUnique (L.foldl mergeStep m) from
    h B _ hF
  intro L
  induction L with
  | nil => intro m hm; exact hm
  | cons b L ih => intro m hm; exact ih _ (mergeStep_unique m b hm)

/-- Email-only incoming record, exactly one name-only entry, no entry with
that email: the loop body reconciles the two into one entry. -/
theorem mergeStep_reconcile_email (m : List Att) (a : Att)
    (hn : truthy a.name = false) (he : truthy a.email = true)
    (hfind : m.find? (emailMatches (oget a.email)) = none)
    (hcount : m.countP nameOnly = 1) :
    (mergeStep m a).length = m.length
    ∧ ∃ x ∈ m, nameOnly x = true ∧ (⟨x.name, a.email⟩ : Att) ∈ mergeStep m a := by
  have hred : mergeStep m a
      = updateFirst nameOnly (fun att => { att with email := a.email }) m := by
    unfold mergeStep
    rw [if_neg (by simp [hn, he]), if_pos he]
    dsimp only
    rw [hfind]
    dsimp only
    rw [if_pos (by simp [hn, hcount])]
  have hex : ∃ x ∈ m, nameOnly x = true := by
    apply List.countP_pos_iff.mp
    rw [hcount]
    norm_num
  obtain ⟨x, hx, hpx, hmem⟩ :=
    updateFirst_mem_image (f := fun att => { att with email := a.email }) hex
  exact ⟨by rw [hred]; exact updateFirst_length _ _ _,
    x, hx, hpx, by rw [hred]; exact hmem⟩

/-- Name-only incoming record, exactly one email-only entry, no entry with
that name: the loop body reconciles the two into one entry. -/
theorem mergeStep_reconcile_name (m : List Att) (a : Att)
    (hn : truthy a.name = true) (he : truthy a.email = false)
    (hfind : (m.find? (nameMatches (oget a.name))).isSome = false)
    (hcount : m.countP emailOnly = 1) :
    (mergeStep m a).length = m.length
    ∧ ∃ x ∈ m, emailOnly x = true ∧ (⟨a.name, x.email⟩ : Att) ∈ mergeStep m a := by
  have hred : mergeStep m a
      = updateFirst emailOnly (fun att => { att with name := a.name }) m := by
    unfold mergeStep
    rw [if_neg (by simp [hn]), if_neg (by simp [he]), if_neg (by simp [hfind]),
      if_pos (by simp [hcount])]
  have hex : ∃ x ∈ m, emailOnly x = true := by
    apply List.countP_pos_iff.mp
    rw [hcount]
    norm_num
  obtain ⟨x, hx, hpx, hmem⟩ :=
    updateFirst_mem_image (f := fun att => { att with name := a.name }) hex
  exact ⟨by rw [hred]; exact updateFirst_length _ _ _,
    x, hx, hpx, by rw [hred]; exact hmem⟩

/-- C6 (counterexample): reconciliation is *not* unconditional.  Existing
list: one email-only entry `bob@x.com` and one entry named "Bob" with a
different email; incoming: name-only "Bob".  There is exactly one email-only
entry and the incoming record has only a name, yet the merge leaves the list
unchanged (the incoming name matches the other entry first) — no entry
`⟨Bob, bob@x.com⟩` is created. -/
theorem C6_counterexample :
    merge_attendees [⟨none, some "bob@x.com"⟩, ⟨some "Bob", some "c@y.com"⟩]
        [⟨some "Bob", none⟩]
      = [⟨none, some "bob@x.com"⟩, ⟨some "Bob", some "c@y.com"⟩]
    ∧ List.countP emailOnly [⟨none, some "bob@x.com"⟩, ⟨some "Bob", some "c@y.com"⟩] = 1
    ∧ truthy (⟨some "Bob", none⟩ : Att).name = true
    ∧ truthy (⟨some "Bob", none⟩ : Att).email = false
    ∧ ¬ ((⟨some "Bob", some "bob@x.com"⟩ : Att)
        ∈ merge_attendees [⟨none, some "bob@x.com"⟩, ⟨some "Bob", some "c@y.com"⟩]
            [⟨some "Bob", none⟩]) := by decide

/-- C6 (amended): (1) if no two entries of the existing list share the same
non-empty email (case-insensitively), the merged list never does either;
(2) an incoming email-only record is reconciled into the unique name-only
entry — no entry added, the entry now carrying both — provided additionally
no existing entry already bears that email; (3) symmetrically, an incoming
name-only record is reconciled into the unique email-only entry provided no
existing entry already bears that name. -/
theorem C6_uniqueness_amended :
    (∀ (A B : List Att), EmailsUnique A → EmailsUnique (merge_attendees A B))
    ∧ (∀ (m : List Att) (a : Att), truthy a.name = false → truthy a.email = true →
        m.find? (emailMatches (oget a.email)) = none → m.countP nameOnly = 1 →
        (mergeStep m a).length = m.length
        ∧ ∃ x ∈ m, nameOnly x = true ∧ (⟨x.name, a.email⟩ : Att) ∈ mergeStep m a)
    ∧ (∀ (m : List Att) (a : Att), truthy a.name = true → truthy a.email = false →
        (m.find? (nameMatches (oget a.name))).isSome = false → m.countP emailOnly = 1 →
        (mergeStep m a).length = m.length
        ∧ ∃ x ∈ m, emailOnly x = true ∧ (⟨a.name, x.email⟩ : Att) ∈ mergeStep m a) :=
  ⟨merge_attendees_unique,
   fun m a hn he hf hc => mergeStep_reconcile_email m a hn he hf hc,
   fun m a hn he hf hc => mergeStep_reconcile_name m a hn he hf hc⟩

/-- The existing attendee list of the C6 witness. -/
def c6Existing : List Att := [⟨some "Bob", none⟩, ⟨some "Ann", some "ann@x.com"⟩]

/-- Witness for `C6_uniqueness_amended`: uniqueness through a merge that adds
and reconciles, and one concrete reconciliation of `bob@x.com` into "Bob". -/
theorem C6_uniqueness_witness :
    EmailsUnique (merge_attendees c6Existing [⟨none, some "bob@x.com"⟩])
    ∧ ((mergeStep c6Existing ⟨none, some "bob@x.com"⟩).length = c6Existing.length
      ∧ ∃ x ∈ c6Existing, nameOnly x = true
          ∧ (⟨x.name, some "bob@x.com"⟩ : Att)
            ∈ mergeStep c6Existing ⟨none, some "bob@x.com"⟩) :=
  ⟨C6_uniqueness_amended.1 c6Existing ([⟨none, some "bob@x.com"⟩] : List Att)
      (by unfold EmailsUnique c6Existing; decide),
   C6_uniqueness_amended.2.1 c6Existing (⟨none, some "bob@x.com"⟩ : Att)
      (by decide) (by decide) (by decide) (by decide)⟩

/-! ## Claim C5: idempotence of the attendee merge -/

/-- `str.lower()` of a non-empty string is non-empty. -/
theorem slower_eq_empty_iff (s : String) : slower s = "" ↔ s = "" := by
  cases s with
  | mk l =>
    unfold slower
    constructor
    · intro h
      have hd := congrArg String.data h
      simp only [List.map_eq_nil_iff] at hd
      rw [hd]
    · intro h
      rw [show (String.mk l) = ("" : String) from h]
      rfl

/-- A falsy optional string has the empty case-key. -/
theorem key_of_falsy (v : Option String) (h : truthy v = false) : slower (oget v) = "" := by
  cases v with
  | none => rfl
  | some s =>
    unfold truthy at h
    simp only [bne_eq_false_iff_eq] at h
    rw [h]
    rfl

/-- A field whose case-key equals a non-empty key is truthy. -/
theorem truthy_of_key (v : Option String) (n : String) (hn : slower n ≠ "")
    (h : slower (oget v) = slower n) : truthy v = true := by
  by_contra hf
  rw [Bool.not_eq_true] at hf
  exact hn (h ▸ key_of_falsy v hf)

/-- A truthy optional string has a non-empty case-key. -/
theorem key_of_truthy (v : Option String) (h : truthy v = true) :
    slower (oget v) ≠ "" := by
  cases v with
  | none => cases h
  | some s =>
    unfold truthy at h
    simp only [bne_iff_ne, ne_eq] at h
    unfold oget
    exact fun hc => h ((slower_eq_empty_iff s).mp hc)

/-- `find?` over an append whose left part finds a witness. -/
theorem find?_append_some {p : Att → Bool} {l₁ : List Att} {z : Att} (l₂ : List Att)
    (h : l₁.find? p = some z) : (l₁ ++ l₂).find? p = some z := by
  induction l₁ with
  | nil => cases h
  | cons a l ih =>
    by_cases hp : p a = true
    · rw [List.find?_cons_of_pos _ hp] at h
      rw [List.cons_append, List.find?_cons_of_pos _ hp]
      exact h
    · rw [List.find?_cons_of_neg _ hp] at h
      rw [List.cons_append, List.find?_cons_of_neg _ hp]
      exact ih h

/-- `find?` over an append whose left part finds nothing. -/
theorem find?_append_none {p : Att → Bool} {l₁ : List Att} (l₂ : List Att)
    (h : l₁.find? p = none) : (l₁ ++ l₂).find? p = l₂.find? p := by
  induction l₁ with
  | nil => rfl
  | cons a l ih =>
    by_cases hp : p a = true
    · rw [List.find?_cons_of_pos _ hp] at h; cases h
    · rw [List.find?_cons_of_neg _ hp] at h
      rw [List.cons_append, List.find?_cons_of_neg _ hp]
      exact ih h

/-- `updateFirst` either finds nothing (and is the identity) or rewrites
exactly the first match. -/
theorem updateFirst_eq_or (q : Att → Bool) (f : Att → Att) (l : List Att) :
    (l.find? q = none ∧ updateFirst q f l = l)
    ∨ ∃ l₁ y l₂, l = l₁ ++ y :: l₂ ∧ q y = true ∧ (∀ x ∈ l₁, q x = false)
        ∧ updateFirst q f l = l₁ ++ f y :: l₂ ∧ l.find? q = some y := by
  induction l with
  | nil => exact Or.inl ⟨rfl, rfl⟩
  | cons a l ih =>
    by_cases hq : q a = true
    · refine Or.inr ⟨[], a, l, rfl, hq, ?_, ?_, ?_⟩
      · intro x hx; cases hx
      · unfold updateFirst; rw [if_pos hq]; rfl
      · rw [List.find?_cons_of_pos _ hq]
    · rcases ih with ⟨hnone, hid⟩ | ⟨l₁, y, l₂, hsplit, hqy, hl₁, hupd, hfind⟩
      · refine Or.inl ⟨?_, ?_⟩
        · rw [List.find?_cons_of_neg _ hq]; exact hnone
        · unfold updateFirst; rw [if_neg hq, hid]
      · refine Or.inr ⟨a :: l₁, y, l₂, by rw [hsplit, List.cons_append], hqy, ?_, ?_, ?_⟩
        · intro x hx
          rcases List.mem_cons.mp hx with rfl | hx'
          · exact Bool.eq_false_iff.mpr hq
          · exact hl₁ x hx'
        · unfold updateFirst
          rw [if_neg hq, hupd, List.cons_append]
        · rw [List.find?_cons_of_neg _ hq]; exact hfind

/-- If the first match is a fixed point of the update, `updateFirst` is the
identity. -/
theorem updateFirst_eq_self {q : Att → Bool} {f : Att → Att} {l : List Att} {z : Att}
    (hfind : l.find? q = some z) (hz : f z = z) : updateFirst q f l = l := by
  rcases updateFirst_eq_or q f l with ⟨hnone, -⟩ | ⟨l₁, y, l₂, hsplit, -, -, hupd, hfind'⟩
  · rw [hnone] at hfind; cases hfind
  · rw [hfind'] at hfind
    injection hfind with hyz
    rw [hupd, hsplit, hyz, hz]

/-- An incoming attendee is *absorbed* by the list when the `_merge_attendees`
loop body leaves the list unchanged on it: it is empty; or its email has a
match whose name is already filled in whenever the incoming record has one;
or (no email match) its name finds an entry that already carries an email;
or it is name-only and its name already occurs. -/
def Absorbed (m : List Att) (a : Att) : Prop :=
  (truthy a.name = false ∧ truthy a.email = false)
  ∨ (truthy a.email = true
      ∧ ((∃ z, m.find? (emailMatches (oget a.email)) = some z
            ∧ (truthy a.name = true → truthy z.name = true))
        ∨ (truthy a.name = true
            ∧ m.find? (emailMatches (oget a.email)) = none
            ∧ ∃ w, m.find? (nameMatches (oget a.name)) = some w ∧ truthy w.email = true)))
  ∨ (truthy a.email = false ∧ truthy a.name = true
      ∧ (m.find? (nameMatches (oget a.name))).isSome = true)

/-- An absorbed attendee leaves the loop state unchanged. -/
theorem absorbed_step (m : List Att) (a : Att) (h : Absorbed m a) : mergeStep m a = m := by
  unfold mergeStep
  rcases h with ⟨hn, he⟩ | ⟨he, hcase⟩ | ⟨he, hn, hfind⟩
  · rw [if_pos (by simp [hn, he])]
  · rw [if_neg (by simp [he]), if_pos he]
    dsimp only
    rcases hcase with ⟨z, hz, hzname⟩ | ⟨hn, hnone, w, hw, hwe⟩
    · rw [hz]
      dsimp only
      by_cases hna : truthy a.name = true
      · rw [if_pos hna]
        exact updateFirst_eq_self hz (by rw [if_pos (hzname hna)])
      · rw [if_neg hna]
    · rw [hnone]
      dsimp only
      rw [if_neg (by simp [hn]), if_pos (by simp [hn, hw])]
      exact updateFirst_eq_self hw (by rw [if_pos hwe])
  · rw [if_neg (by simp [hn]), if_neg (by simp [he]), if_pos hfind]

/-- `updateFirst` relocates the first match to its image when the image still
matches. -/
theorem find?_updateFirst_self {p : Att → Bool} {f : Att → Att} {l : List Att} {z : Att}
    (hfind : l.find? p = some z) (hfz : p (f z) = true) :
    (updateFirst p f l).find? p = some (f z) := by
  rcases updateFirst_eq_or p f l with ⟨hnone, -⟩ | ⟨l₁, y, l₂, hsplit, hqy, hl₁, hupd, hfind'⟩
  · rw [hnone] at hfind; cases hfind
  · rw [hfind'] at hfind
    injection hfind with hyz
    subst hyz
    rw [hupd]
    have hl₁n : l₁.find? p = none :=
      List.find?_eq_none.mpr (fun x hx => by simp [hl₁ x hx])
    rw [find?_append_none _ hl₁n, List.find?_cons_of_pos _ hfz]

/-- After one loop iteration the processed attendee is absorbed. -/
theorem absorbed_establish (m : List Att) (a : Att) : Absorbed (mergeStep m a) a := by
  unfold mergeStep
  by_cases h0 : (!truthy a.name && !truthy a.email) = true
  · rw [if_pos h0]
    simp only [Bool.and_eq_true, Bool.not_eq_true'] at h0
    exact Or.inl ⟨h0.1, h0.2⟩
  · rw [if_neg h0]
    by_cases he : truthy a.email = true
    · rw [if_pos he]
      dsimp only
      cases hfind : m.find? (emailMatches (oget a.email)) with
      | some z =>
        dsimp only
        have hpz : emailMatches (oget a.email) z = true := List.find?_some hfind
        by_cases hna : truthy a.name = true
        · rw [if_pos hna]
          have hfz : emailMatches (oget a.email)
              (if truthy z.name = true then z else { z with name := a.name }) = true := by
            split <;> exact hpz
          refine Or.inr (Or.inl ⟨he, Or.inl ⟨_, find?_updateFirst_self hfind hfz, fun _ => ?_⟩⟩)
          by_cases hzn : truthy z.name = true
          · rw [if_pos hzn]; exact hzn
          · rw [if_neg hzn]; exact hna
        · rw [if_neg hna]
          exact Or.inr (Or.inl ⟨he, Or.inl ⟨z, hfind, fun hc => absurd hc hna⟩⟩)
      | none =>
        dsimp only
        by_cases h1 : (!truthy a.name && (m.countP nameOnly == 1)) = true
        · rw [if_pos h1]
          simp only [Bool.and_eq_true, Bool.not_eq_true', beq_iff_eq] at h1
          rcases updateFirst_eq_or nameOnly (fun att => { att with email := a.email }) m with
            ⟨hqnone, -⟩ | ⟨l₁, y, l₂, hsplit, hqy, hl₁, hupd, hfindq⟩
          · exfalso
            have hz : m.countP nameOnly = 0 :=
              List.countP_eq_zero.mpr (fun x hx => by
                simpa using List.find?_eq_none.mp hqnone x hx)
            omega
          · rw [hupd]
            have hl₁e : l₁.find? (emailMatches (oget a.email)) = none :=
              List.find?_eq_none.mpr (fun x hx =>
                List.find?_eq_none.mp hfind x (by rw [hsplit]; exact List.mem_append_left _ hx))
            refine Or.inr (Or.inl ⟨he, Or.inl ⟨{ y with email := a.email }, ?_, ?_⟩⟩)
            · rw [find?_append_none _ hl₁e,
                List.find?_cons_of_pos _ (by simp [emailMatches])]
            · intro hc
              rw [h1.1] at hc
              cases hc
        · rw [if_neg h1]
          by_cases h2 : (truthy a.name && (m.find? (nameMatches (oget a.name))).isSome) = true
          · rw [if_pos h2]
            simp only [Bool.and_eq_true] at h2
            obtain ⟨hna, hsome⟩ := h2
            obtain ⟨w, hw⟩ := Option.isSome_iff_exists.mp hsome
            by_cases hwe : truthy w.email = true
            · rw [updateFirst_eq_self hw (by rw [if_pos hwe])]
              exact Or.inr (Or.inl ⟨he, Or.inr ⟨hna, hfind, w, hw, hwe⟩⟩)
            · rcases updateFirst_eq_or (nameMatches (oget a.name))
                  (fun att => if truthy att.email = true then att
                    else { att with email := a.email }) m with
                ⟨hqnone, -⟩ | ⟨l₁, y, l₂, hsplit, hqy, hl₁, hupd, hfindq⟩
              · rw [hqnone] at hw; cases hw
              · have hyw : y = w := by
                  rw [hfindq] at hw; injection hw
                subst hyw
                rw [hupd]
                have hl₁e : l₁.find? (emailMatches (oget a.email)) = none :=
                  List.find?_eq_none.mpr (fun x hx =>
                    List.find?_eq_none.mp hfind x
                      (by rw [hsplit]; exact List.mem_append_left _ hx))
                have hwe' : truthy y.email = false := by rwa [Bool.not_eq_true] at hwe
                have hfy : (if truthy y.email = true then y
                    else { y with email := a.email }) = { y with email := a.email } := by
                  rw [if_neg (by simp [hwe'])]
                refine Or.inr (Or.inl ⟨he,
                  Or.inl ⟨{ y with email := a.email }, ?_, fun _ => ?_⟩⟩)
                · rw [find?_append_none _ hl₁e, hfy,
                    List.find?_cons_of_pos _ (by simp [emailMatches])]
                · exact truthy_of_key y.name (oget a.name)
                    (key_of_truthy a.name hna)
                    (by simpa [nameMatches] using hqy)
          · rw [if_neg h2]
            refine Or.inr (Or.inl ⟨he, Or.inl ⟨⟨a.name, a.email⟩, ?_, fun hc => hc⟩⟩)
            rw [find?_append_none _ hfind, List.find?_cons_of_pos _ (by simp [emailMatches])]
    · rw [if_neg he]
      have he' : truthy a.email = false := by rwa [Bool.not_eq_true] at he
      have hna : truthy a.name = true := by
        by_contra hc
        rw [Bool.not_eq_true] at hc
        simp [hc, he'] at h0
      by_cases h3 : (m.find? (nameMatches (oget a.name))).isSome = true
      · rw [if_pos h3]
        exact Or.inr (Or.inr ⟨he', hna, h3⟩)
      · rw [if_neg h3]
        by_cases h4 : (m.countP emailOnly == 1) = true
        · rw [if_pos h4]
          simp only [beq_iff_eq] at h4
          rcases updateFirst_eq_or emailOnly (fun att => { att with name := a.name }) m with
            ⟨hqnone, -⟩ | ⟨l₁, y, l₂, hsplit, hqy, hl₁, hupd, hfindq⟩
          · exfalso
            have hz : m.countP emailOnly = 0 :=
              List.countP_eq_zero.mpr (fun x hx => by
                simpa using List.find?_eq_none.mp hqnone x hx)
            omega
          · rw [hupd]
            refine Or.inr (Or.inr ⟨he', hna, ?_⟩)
            rw [List.find?_isSome]
            exact ⟨{ y with name := a.name },
              by exact List.mem_append_right _ (List.mem_cons_self _ _),
              by simp [nameMatches]⟩
        · rw [if_neg h4]
          refine Or.inr (Or.inr ⟨he', hna, ?_⟩)
          rw [List.find?_isSome]
          exact ⟨⟨a.name, none⟩,
            List.mem_append_right _ (List.mem_cons_self _ _),
            by simp [nameMatches]⟩

/-- Every `_merge_attendees` loop branch is the identity, an `updateFirst`
whose update only fills a falsy email with the incoming email or a falsy
name (of a truthy-email entry) with the incoming name, or an append of the
incoming record. -/
theorem mergeStep_cases (m : List Att) (b : Att) :
    mergeStep m b = m
    ∨ (∃ (q : Att → Bool) (f : Att → Att), mergeStep m b = updateFirst q f m
        ∧ (∀ x, q x = true →
            ((f x).email = x.email
              ∨ (truthy x.email = false ∧ (f x).email = b.email ∧ (f x).name = x.name
                  ∧ truthy b.email = true)))
        ∧ (∀ x, q x = true →
            ((f x).name = x.name
              ∨ (truthy x.name = false ∧ (f x).name = b.name ∧ (f x).email = x.email
                  ∧ truthy x.email = true ∧ truthy b.name = true))))
    ∨ (mergeStep m b = m ++ [⟨b.name, b.email⟩] ∧ truthy b.email = true
        ∧ m.find? (emailMatches (oget b.email)) = none)
    ∨ (mergeStep m b = m ++ [⟨b.name, none⟩] ∧ truthy b.name = true) := by
  unfold mergeStep
  by_cases h0 : (!truthy b.name && !truthy b.email) = true
  · rw [if_pos h0]; exact Or.inl rfl
  · rw [if_neg h0]
    by_cases he : truthy b.email = true
    · rw [if_pos he]
      dsimp only
      cases hfind : m.find? (emailMatches (oget b.email)) with
      | some z =>
        dsimp only
        by_cases hn : truthy b.name = true
        · rw [if_pos hn]
          refine Or.inr (Or.inl ⟨emailMatches (oget b.email), _, rfl, ?_, ?_⟩)
          · intro x _
            by_cases hx : truthy x.name = true
            · rw [if_pos hx]; exact Or.inl rfl
            · rw [if_neg hx]; exact Or.inl rfl
          · intro x hq
            by_cases hx : truthy x.name = true
            · rw [if_pos hx]; exact Or.inl rfl
            · rw [if_neg hx]
              refine Or.inr ⟨by rwa [Bool.not_eq_true] at hx, rfl, rfl, ?_, hn⟩
              exact truthy_of_key x.email (oget b.email) (key_of_truthy b.email he)
                (by simpa [emailMatches] using hq)
        · rw [if_neg hn]; exact Or.inl rfl
      | none =>
        dsimp only
        by_cases h1 : (!truthy b.name && (m.countP nameOnly == 1)) = true
        · rw [if_pos h1]
          refine Or.inr (Or.inl ⟨nameOnly, _, rfl, ?_, ?_⟩)
          · intro x hq
            refine Or.inr ⟨?_, rfl, rfl, he⟩
            unfold nameOnly at hq
            simp only [Bool.and_eq_true, Bool.not_eq_true'] at hq
            exact hq.2
          · intro x _; exact Or.inl rfl
        · rw [if_neg h1]
          by_cases h2 : (truthy b.name && (m.find? (nameMatches (oget b.name))).isSome) = true
          · rw [if_pos h2]
            refine Or.inr (Or.inl ⟨nameMatches (oget b.name), _, rfl, ?_, ?_⟩)
            · intro x _
              by_cases hx : truthy x.email = true
              · rw [if_pos hx]; exact Or.inl rfl
              · rw [if_neg hx]
                exact Or.inr ⟨by rwa [Bool.not_eq_true] at hx, rfl, rfl, he⟩
            · intro x _
              by_cases hx : truthy x.email = true
              · rw [if_pos hx]; exact Or.inl rfl
              · rw [if_neg hx]; exact Or.inl rfl
          · rw [if_neg h2]
            exact Or.inr (Or.inr (Or.inl ⟨rfl, he, rfl⟩))
    · rw [if_neg he]
      have he' : truthy b.email = false := by rwa [Bool.not_eq_true] at he
      have hn : truthy b.name = true := by
        by_contra hc
        rw [Bool.not_eq_true] at hc
        simp [hc, he'] at h0
      by_cases h3 : (m.find? (nameMatches (oget b.name))).isSome = true
      · rw [if_pos h3]; exact Or.inl rfl
      · rw [if_neg h3]
        by_cases h4 : (m.countP emailOnly == 1) = true
        · rw [if_pos h4]
          refine Or.inr (Or.inl ⟨emailOnly, _, rfl, ?_, ?_⟩)
          · intro x _; exact Or.inl rfl
          · intro x hq
            unfold emailOnly at hq
            simp only [Bool.and_eq_true, Bool.not_eq_true'] at hq
            exact Or.inr ⟨hq.2, rfl, rfl, hq.1, hn⟩
        · rw [if_neg h4]
          exact Or.inr (Or.inr (Or.inr ⟨rfl, hn⟩))

/-- Replacing one element by an image with the same match status leaves
`find?` unchanged, unless the element was the first match, in which case its
image is the new first match. -/
theorem find?_update_split {p : Att → Bool} (l₁ l₂ : List Att) (y fy : Att)
    (hpy : p fy = p y) :
    (l₁ ++ fy :: l₂).find? p = (l₁ ++ y :: l₂).find? p
    ∨ ((l₁ ++ y :: l₂).find? p = some y ∧ (l₁ ++ fy :: l₂).find? p = some fy) := by
  cases hl : l₁.find? p with
  | some z₀ =>
    left
    rw [find?_append_some _ hl, find?_append_some _ hl]
  | none =>
    rw [find?_append_none _ hl, find?_append_none _ hl]
    by_cases hy : p y = true
    · exact Or.inr ⟨List.find?_cons_of_pos _ hy,
        List.find?_cons_of_pos _ (by rw [hpy]; exact hy)⟩
    · left
      rw [List.find?_cons_of_neg _ (by rw [hpy]; exact hy), List.find?_cons_of_neg _ hy]

/-- An attendee whose email key differs from a truthy key never email-matches
that key. -/
theorem emailMatches_false (a x : Att) (hae : truthy a.email = true)
    (hkey : truthy x.email = true → slower (oget x.email) ≠ slower (oget a.email)) :
    emailMatches (oget a.email) x = false := by
  unfold emailMatches
  by_cases hx : truthy x.email = true
  · exact beq_eq_false_iff_ne.mpr (hkey hx)
  · rw [key_of_falsy _ (by rwa [Bool.not_eq_true] at hx)]
    exact beq_eq_false_iff_ne.mpr (fun hc => key_of_truthy _ hae hc.symm)

/-- The merge-loop updates never change whether an entry email-matches a key
distinct from the incoming email's key. -/
theorem emailMatches_update (a b y fy : Att)
    (hae : truthy a.email = true)
    (hkey : truthy b.email = true → slower (oget b.email) ≠ slower (oget a.email))
    (hU1y : fy.email = y.email
      ∨ (truthy y.email = false ∧ fy.email = b.email ∧ fy.name = y.name
          ∧ truthy b.email = true)) :
    emailMatches (oget a.email) fy = emailMatches (oget a.email) y := by
  rcases hU1y with heq | ⟨hyef, hfe, -, hbe⟩
  · unfold emailMatches; rw [heq]
  · rw [emailMatches_false a fy hae (by rw [hfe]; exact hkey),
      emailMatches_false a y hae (fun hc => absurd hc (by simp [hyef]))]

/-- A later loop iteration on an email-key-distinct attendee preserves an
email match (with its filled-name guarantee). -/
theorem mergeStep_pres_email_some (m : List Att) (a b : Att)
    (hae : truthy a.email = true)
    (hkey : truthy b.email = true → slower (oget b.email) ≠ slower (oget a.email))
    (h : ∃ z, m.find? (emailMatches (oget a.email)) = some z
          ∧ (truthy a.name = true → truthy z.name = true)) :
    ∃ z, (mergeStep m b).find? (emailMatches (oget a.email)) = some z
          ∧ (truthy a.name = true → truthy z.name = true) := by
  obtain ⟨z, hz, hzn⟩ := h
  rcases mergeStep_cases m b with h0 | ⟨q, f, hupd, hU1, hU2⟩ | ⟨happ, -, -⟩ | ⟨happ, -⟩
  · rw [h0]; exact ⟨z, hz, hzn⟩
  · rw [hupd]
    rcases updateFirst_eq_or q f m with ⟨-, hid⟩ | ⟨l₁, y, l₂, hsplit, hqy, -, hupd2, -⟩
    · rw [hid]; exact ⟨z, hz, hzn⟩
    · have hpfy : emailMatches (oget a.email) (f y) = emailMatches (oget a.email) y :=
        emailMatches_update a b y (f y) hae hkey (hU1 y hqy)
      rw [hupd2]
      rw [hsplit] at hz
      rcases find?_update_split l₁ l₂ y (f y) hpfy with heq | ⟨hy, hfy⟩
      · rw [heq]; exact ⟨z, hz, hzn⟩
      · rw [hz] at hy
        injection hy with hzy
        refine ⟨f y, hfy, fun han => ?_⟩
        have hyn : truthy y.name = true := by rw [← hzy]; exact hzn han
        rcases hU2 y hqy with hne | ⟨hc, -⟩
        · rw [hne]; exact hyn
        · rw [hc] at hyn; cases hyn
  · rw [happ]; exact ⟨z, find?_append_some _ hz, hzn⟩
  · rw [happ]; exact ⟨z, find?_append_some _ hz, hzn⟩

/-- A later loop iteration on an email-key-distinct attendee never creates a
match for an absent email key. -/
theorem mergeStep_pres_email_none (m : List Att) (a b : Att)
    (hae : truthy a.email = true)
    (hkey : truthy b.email = true → slower (oget b.email) ≠ slower (oget a.email))
    (h : m.find? (emailMatches (oget a.email)) = none) :
    (mergeStep m b).find? (emailMatches (oget a.email)) = none := by
  rcases mergeStep_cases m b with h0 | ⟨q, f, hupd, hU1, hU2⟩ | ⟨happ, hbe, -⟩ | ⟨happ, -⟩
  · rw [h0]; exact h
  · rw [hupd]
    rcases updateFirst_eq_or q f m with ⟨-, hid⟩ | ⟨l₁, y, l₂, hsplit, hqy, -, hupd2, -⟩
    · rw [hid]; exact h
    · have hpfy : emailMatches (oget a.email) (f y) = emailMatches (oget a.email) y :=
        emailMatches_update a b y (f y) hae hkey (hU1 y hqy)
      rw [hupd2]
      rw [hsplit] at h
      rcases find?_update_split l₁ l₂ y (f y) hpfy with heq | ⟨hy, -⟩
      · rw [heq]; exact h
      · rw [h] at hy; cases hy
  · rw [happ, find?_append_none _ h,
      List.find?_cons_of_neg _ (by
        rw [emailMatches_false a ⟨b.name, b.email⟩ hae hkey]
        exact Bool.false_ne_true),
      List.find?_nil]
  · rw [happ, find?_append_none _ h,
      List.find?_cons_of_neg _ (by
        rw [emailMatches_false a ⟨b.name, none⟩ hae (fun hc => by cases hc)]
        exact Bool.false_ne_true),
      List.find?_nil]

/-- A later loop iteration preserves the existence of a first name match
carrying a truthy email. -/
theorem mergeStep_pres_name_email (m : List Att) (a b : Att)
    (han : truthy a.name = true)
    (h : ∃ w, m.find? (nameMatches (oget a.name)) = some w ∧ truthy w.email = true) :
    ∃ w, (mergeStep m b).find? (nameMatches (oget a.name)) = some w
        ∧ truthy w.email = true := by
  obtain ⟨w, hw, hwe⟩ := h
  have hkna : slower (oget a.name) ≠ "" := key_of_truthy _ han
  rcases mergeStep_cases m b with h0 | ⟨q, f, hupd, hU1, hU2⟩ | ⟨happ, -, -⟩ | ⟨happ, -⟩
  · rw [h0]; exact ⟨w, hw, hwe⟩
  · rw [hupd]
    rcases updateFirst_eq_or q f m with ⟨-, hid⟩ | ⟨l₁, y, l₂, hsplit, hqy, -, hupd2, -⟩
    · rw [hid]; exact ⟨w, hw, hwe⟩
    · rw [hupd2]
      rw [hsplit] at hw
      cases hl : l₁.find? (nameMatches (oget a.name)) with
      | some w₀ =>
        rw [find?_append_some _ hl] at hw
        exact ⟨w, by rw [find?_append_some _ hl]; exact hw, hwe⟩
      | none =>
        rw [find?_append_none _ hl] at hw
        rw [find?_append_none _ hl]
        by_cases hpy : nameMatches (oget a.name) y = true
        · rw [List.find?_cons_of_pos _ hpy] at hw
          injection hw with hyw
          have hyn : truthy y.name = true :=
            truthy_of_key _ _ hkna (by simpa [nameMatches] using hpy)
          have hfn : (f y).name = y.name := by
            rcases hU2 y hqy with hne | ⟨hc, -⟩
            · exact hne
            · rw [hc] at hyn; cases hyn
          have hpfy : nameMatches (oget a.name) (f y) = true := by
            unfold nameMatches at hpy ⊢
            rw [hfn]; exact hpy
          refine ⟨f y, by rw [List.find?_cons_of_pos _ hpfy], ?_⟩
          rcases hU1 y hqy with hee | ⟨hyef, -, -, -⟩
          · rw [hee, hyw]; exact hwe
          · rw [hyw, hwe] at hyef; cases hyef
        · rw [List.find?_cons_of_neg _ hpy] at hw
          by_cases hpfy : nameMatches (oget a.name) (f y) = true
          · refine ⟨f y, by rw [List.find?_cons_of_pos _ hpfy], ?_⟩
            rcases hU2 y hqy with hne | ⟨-, -, hfe, hye, -⟩
            · unfold nameMatches at hpy hpfy
              rw [hne] at hpfy
              exact absurd hpfy hpy
            · rw [hfe]; exact hye
          · rw [List.find?_cons_of_neg _ hpfy]
            exact ⟨w, hw, hwe⟩
  · rw [happ]; exact ⟨w, find?_append_some _ hw, hwe⟩
  · rw [happ]; exact ⟨w, find?_append_some _ hw, hwe⟩

/-- A later loop iteration preserves the existence of a name match. -/
theorem mergeStep_pres_name_isSome (m : List Att) (a b : Att)
    (han : truthy a.name = true)
    (h : (m.find? (nameMatches (oget a.name))).isSome = true) :
    ((mergeStep m b).find? (nameMatches (oget a.name))).isSome = true := by
  rw [Option.isSome_iff_exists] at h
  obtain ⟨w, hw⟩ := h
  have hkna : slower (oget a.name) ≠ "" := key_of_truthy _ han
  rcases mergeStep_cases m b with h0 | ⟨q, f, hupd, hU1, hU2⟩ | ⟨happ, -, -⟩ | ⟨happ, -⟩
  · rw [h0, hw]; rfl
  · rw [hupd]
    rcases updateFirst_eq_or q f m with ⟨-, hid⟩ | ⟨l₁, y, l₂, hsplit, hqy, -, hupd2, -⟩
    · rw [hid, hw]; rfl
    · rw [hupd2]
      rw [hsplit] at hw
      cases hl : l₁.find? (nameMatches (oget a.name)) with
      | some w₀ =>
        rw [find?_append_some _ hl]; rfl
      | none =>
        rw [find?_append_none _ hl] at hw
        rw [find?_append_none _ hl]
        by_cases hpy : nameMatches (oget a.name) y = true
        · have hyn : truthy y.name = true :=
            truthy_of_key _ _ hkna (by simpa [nameMatches] using hpy)
          have hfn : (f y).name = y.name := by
            rcases hU2 y hqy with hne | ⟨hc, -⟩
            · exact hne
            · rw [hc] at hyn; cases hyn
          have hpfy : nameMatches (oget a.name) (f y) = true := by
            unfold nameMatches at hpy ⊢
            rw [hfn]; exact hpy
          rw [List.find?_cons_of_pos _ hpfy]; rfl
        · rw [List.find?_cons_of_neg _ hpy] at hw
          by_cases hpfy : nameMatches (oget a.name) (f y) = true
          · rw [List.find?_cons_of_pos _ hpfy]; rfl
          · rw [List.find?_cons_of_neg _ hpfy, hw]; rfl
  · rw [happ, find?_append_some _ hw]; rfl
  · rw [happ, find?_append_some _ hw]; rfl

/-- Absorption survives later loop iterations whose incoming email key is
distinct. -/
theorem absorbed_mono (m : List Att) (a b : Att)
    (hkey : truthy a.email = true → truthy b.email = true →
      slower (oget b.email) ≠ slower (oget a.email))
    (h : Absorbed m a) : Absorbed (mergeStep m b) a := by
  rcases h with ⟨hn, he⟩ | ⟨he, hcase⟩ | ⟨he, hn, hfind⟩
  · exact Or.inl ⟨hn, he⟩
  · refine Or.inr (Or.inl ⟨he, ?_⟩)
    rcases hcase with hex | ⟨hn, hnone, hwex⟩
    · exact Or.inl (mergeStep_pres_email_some m a b he (hkey he) hex)
    · exact Or.inr ⟨hn, mergeStep_pres_email_none m a b he (hkey he) hnone,
        mergeStep_pres_name_email m a b hn hwex⟩
  · exact Or.inr (Or.inr ⟨he, hn, mergeStep_pres_name_isSome m a b hn hfind⟩)

/-- Absorption survives a whole tail of the loop when every remaining
incoming attendee has a distinct email key. -/
theorem absorbed_foldl (L : List Att) : ∀ (m : List Att) (a : Att),
    Absorbed m a →
    (∀ b ∈ L, truthy a.email = true → truthy b.email = true →
      slower (oget b.email) ≠ slower (oget a.email)) →
    Absorbed (L.foldl mergeStep m) a := by
  induction L with
  | nil => intro m a h _; exact h
  | cons b L ih =>
    intro m a h hd
    rw [List.foldl_cons]
    exact ih (mergeStep m b) a
      (absorbed_mono m a b (hd b (List.mem_cons_self b L)) h)
      (fun b' hb' => hd b' (List.mem_cons_of_mem _ hb'))

/-- After the loop runs over an email-key-distinct batch, every batch member
is absorbed by the final list. -/
theorem all_absorbed (B : List Att) : ∀ (m : List Att),
    B.Pairwise (fun x y => truthy x.email = true → truthy y.email = true →
      slower (oget y.email) ≠ slower (oget x.email)) →
    ∀ a ∈ B, Absorbed (B.foldl mergeStep m) a := by
  induction B with
  | nil => intro m _ a ha; cases ha
  | cons b B ih =>
    intro m hp a ha
    rw [List.pairwise_cons] at hp
    rw [List.foldl_cons]
    rcases List.mem_cons.mp ha with rfl | ha'
    · exact absorbed_foldl B (mergeStep m a) a (absorbed_establish m a)
        (fun b' hb' => hp.1 b' hb')
    · exact ih (mergeStep m b) hp.2 a ha'

/-- A fold over fixed points is the identity. -/
theorem foldl_fixed (B M : List Att) :
    (∀ b ∈ B, mergeStep M b = M) → B.foldl mergeStep M = M := by
  induction B with
  | nil => intro _; rfl
  | cons b B ih =>
    intro h
    rw [List.foldl_cons, h b (List.mem_cons_self b B)]
    exact ih (fun b' hb' => h b' (List.mem_cons_of_mem _ hb'))

/-- One loop iteration keeps every entry truthy in name or email. -/
theorem keepAtt_mergeStep (m : List Att) (b : Att)
    (h : ∀ x ∈ m, keepAtt x = true) : ∀ x ∈ mergeStep m b, keepAtt x = true := by
  rcases mergeStep_cases m b with h0 | ⟨q, f, hupd, hU1, hU2⟩ | ⟨happ, hbe, -⟩ | ⟨happ, hbn⟩
  · rw [h0]; exact h
  · rw [hupd]
    rcases updateFirst_eq_or q f m with ⟨-, hid⟩ | ⟨l₁, y, l₂, hsplit, hqy, -, hupd2, -⟩
    · rw [hid]; exact h
    · rw [hupd2]
      rw [hsplit] at h
      intro x hx
      rcases List.mem_append.mp hx with hx1 | hx2
      · exact h x (List.mem_append.mpr (Or.inl hx1))
      · rcases List.mem_cons.mp hx2 with rfl | hx3
        · have hy : keepAtt y = true :=
            h y (List.mem_append.mpr (Or.inr (List.mem_cons_self _ _)))
          unfold keepAtt at hy ⊢
          rcases hU1 y hqy with he1 | ⟨-, he2, hn2, hbe'⟩
          · rcases hU2 y hqy with hn1 | ⟨-, -, -, hye, -⟩
            · rw [he1, hn1]; exact hy
            · rw [he1, hye]; simp
          · rw [he2, hn2, hbe']; simp
        · exact h x (List.mem_append.mpr (Or.inr (List.mem_cons_of_mem _ hx3)))
  · rw [happ]
    intro x hx
    rcases List.mem_append.mp hx with hx1 | hx2
    · exact h x hx1
    · rcases List.mem_cons.mp hx2 with rfl | hx3
      · unfold keepAtt
        dsimp only
        rw [hbe]
        simp
      · cases hx3
  · rw [happ]
    intro x hx
    rcases List.mem_append.mp hx with hx1 | hx2
    · exact h x hx1
    · rcases List.mem_cons.mp hx2 with rfl | hx3
      · unfold keepAtt
        dsimp only
        rw [hbn]
        simp
      · cases hx3

/-- The whole loop keeps every entry truthy in name or email. -/
theorem keepAtt_foldl (L : List Att) : ∀ m, (∀ x ∈ m, keepAtt x = true) →
    ∀ x ∈ L.foldl mergeStep m, keepAtt x = true := by
  induction L with
  | nil => intro m h; exact h
  | cons b L ih =>
    intro m h
    rw [List.foldl_cons]
    exact ih (mergeStep m b) (keepAtt_mergeStep m b h)

/-- Every entry of a merge result is truthy in name or email. -/
theorem merge_attendees_keep (A B : List Att) :
    ∀ x ∈ merge_attendees A B, keepAtt x = true := by
  unfold merge_attendees
  exact keepAtt_foldl B (A.filter keepAtt) (fun x hx => (List.mem_filter.mp hx).2)

/-- Existing attendee list of the idempotence counterexample. -/
def c5A : List Att := [⟨some "Bob", some "old@x.com"⟩]

/-- Incoming attendee list of the idempotence counterexample: two records
share the email key, the second nameless. -/
def c5B : List Att := [⟨some "Bob", some "new@x.com"⟩, ⟨none, some "new@x.com"⟩]

/-- C5 counterexample: `_merge_attendees` is not idempotent. Merging `c5B`
into `c5A` leaves a nameless entry for new@x.com; the second merge of the
same batch fills that entry's name, so `merge(merge(A,B),B) ≠ merge(A,B)`. -/
theorem C5_counterexample :
    merge_attendees (merge_attendees c5A c5B) c5B ≠ merge_attendees c5A c5B := by
  decide

/-- C5 (amended): `_merge_attendees` is idempotent on every incoming batch
in which no two records carry the same non-empty case-insensitive email:
for all such `B` and any existing list `A`,
`merge(merge(A,B),B) = merge(A,B)`. -/
theorem C5_idempotent_amended (A B : List Att)
    (hB : B.Pairwise (fun x y => truthy x.email = true → truthy y.email = true →
      slower (oget y.email) ≠ slower (oget x.email))) :
    merge_attendees (merge_attendees A B) B = merge_attendees A B := by
  have hkeep : (merge_attendees A B).filter keepAtt = merge_attendees A B :=
    List.filter_eq_self.mpr (fun x hx => merge_attendees_keep A B x hx)
  have habs : ∀ b ∈ B, Absorbed (merge_attendees A B) b :=
    fun b hb => all_absorbed B (A.filter keepAtt) hB b hb
  calc merge_attendees (merge_attendees A B) B
      = B.foldl mergeStep ((merge_attendees A B).filter keepAtt) := rfl
    _ = B.foldl mergeStep (merge_attendees A B) := by rw [hkeep]
    _ = merge_attendees A B := foldl_fixed B _ (fun b hb => absorbed_step _ b (habs b hb))

/-- The amended idempotence law holds at a concrete email-distinct batch. -/
theorem C5_idempotent_amended_witness :
    ([⟨some "Bob", some "b@x.com"⟩, ⟨none, some "c@y.com"⟩] : List Att).Pairwise
      (fun x y => truthy x.email = true → truthy y.email = true →
        slower (oget y.email) ≠ slower (oget x.email))
    ∧ merge_attendees
        (merge_attendees [⟨some "Ann", none⟩]
          [⟨some "Bob", some "b@x.com"⟩, ⟨none, some "c@y.com"⟩])
        [⟨some "Bob", some "b@x.com"⟩, ⟨none, some "c@y.com"⟩]
      = merge_attendees [⟨some "Ann", none⟩]
          [⟨some "Bob", some "b@x.com"⟩, ⟨none, some "c@y.com"⟩] :=
  ⟨by decide, C5_idempotent_amended [⟨some "Ann", none⟩]
    [⟨some "Bob", some "b@x.com"⟩, ⟨none, some "c@y.com"⟩] (by decide)⟩

/-- The separator-prefixed tail of a space-join: `sepJoin [t1,…,tn]`
is `" t1 … tn"` as characters. -/
def sepJoin : List String → List Char
  | [] => []
  | t :: ts => ' ' :: (t.data ++ sepJoin ts)

/-- Characters of the accumulator pass of `String.intercalate`. -/
theorem go_data : ∀ (ts : List String) (acc : String),
    (String.intercalate.go acc " " ts).data = acc.data ++ sepJoin ts := by
  intro ts
  induction ts with
  | nil => intro acc; simp [String.intercalate.go, sepJoin]
  | cons a as ih =>
    intro acc
    show (String.intercalate.go (acc ++ " " ++ a) " " as).data = _
    rw [ih (acc ++ " " ++ a), String.data_append, String.data_append]
    simp [sepJoin]

/-- Characters of a space-join. -/
theorem intercalate_data (t : String) (ts : List String) :
    (String.intercalate " " (t :: ts)).data = t.data ++ sepJoin ts := go_data ts t

/-- A well-formed bare-name token: non-empty and purely ASCII-alphabetic. -/
def GoodTok (t : String) : Prop := t.data ≠ [] ∧ ∀ c ∈ t.data, isAsciiAlpha c = true

/-- Python whitespace is never ASCII-alphabetic. -/
theorem ws_not_alpha (c : Char) (h : isPyWs c = true) : isAsciiAlpha c = false := by
  unfold isPyWs at h
  simp only [Bool.or_eq_true, beq_iff_eq] at h
  rcases h with ((((rfl | rfl) | rfl) | rfl) | rfl) | rfl <;> decide

/-- An ASCII letter is not Python whitespace. -/
theorem alpha_not_ws (c : Char) (h : isAsciiAlpha c = true) : isPyWs c = false := by
  cases hw : isPyWs c with
  | false => rfl
  | true => rw [ws_not_alpha c hw] at h; cases h

/-- An ASCII letter is a bare-name-word body character. -/
theorem alpha_isNameChar (c : Char) (h : isAsciiAlpha c = true) : isNameChar c = true := by
  unfold isNameChar; rw [h]; rfl

/-- An ASCII letter is an email local-part character. -/
theorem alpha_isLocalChar (c : Char) (h : isAsciiAlpha c = true) : isLocalChar c = true := by
  unfold isLocalChar; rw [h]; rfl

/-- `dropWhile` skips a block that satisfies the predicate throughout. -/
theorem dropWhile_append_all {p : Char → Bool} {l₁ : List Char} (l₂ : List Char)
    (h : ∀ c ∈ l₁, p c = true) : (l₁ ++ l₂).dropWhile p = l₂.dropWhile p := by
  induction l₁ with
  | nil => rfl
  | cons c l ih =>
    rw [List.cons_append, List.dropWhile_cons_of_pos (h c (List.mem_cons_self c l))]
    exact ih (fun x hx => h x (List.mem_cons_of_mem _ hx))

/-- `dropWhile` is the identity when the head already fails the predicate. -/
theorem dropWhile_eq_self_of_head {p : Char → Bool} {l : List Char}
    (h : ∀ c, l.head? = some c → p c = false) : l.dropWhile p = l := by
  cases l with
  | nil => rfl
  | cons c l => rw [List.dropWhile_cons_of_neg (by rw [h c rfl]; exact Bool.false_ne_true)]

/-- `bob@x.com` never starts inside an `@`-free block that it terminates. -/
theorem bob_prefix_false (l : List Char) (hl : ∀ c ∈ l, c ≠ '@') (hne : l ≠ []) :
    (("bob@x.com".data).isPrefixOf (l ++ "bob@x.com".data)) = false := by
  match l with
  | [] => exact absurd rfl hne
  | [c1] => simp [List.isPrefixOf]
  | [c1, c2] => simp [List.isPrefixOf]
  | [c1, c2, c3] => simp [List.isPrefixOf]
  | c1 :: c2 :: c3 :: c4 :: l' =>
    have hc4 : c4 ≠ '@' := hl c4 (by simp)
    simp [List.isPrefixOf, Ne.symm hc4]

/-- `text.split(email)[0]` recovers the `@`-free prefix before the email. -/
theorem splitFirst_bob : ∀ (l : List Char), (∀ c ∈ l, c ≠ '@') →
    splitFirst (l ++ "bob@x.com".data) "bob@x.com".data = l := by
  intro l
  induction l with
  | nil => intro _; decide
  | cons c l ih =>
    intro hl
    rw [List.cons_append]
    show (if ("bob@x.com".data).isPrefixOf (c :: (l ++ "bob@x.com".data)) then []
      else c :: splitFirst (l ++ "bob@x.com".data) "bob@x.com".data) = c :: l
    rw [if_neg (by
      rw [show c :: (l ++ "bob@x.com".data) = (c :: l) ++ "bob@x.com".data from rfl,
        bob_prefix_false (c :: l) hl (List.cons_ne_nil c l)]
      exact Bool.false_ne_true)]
    rw [ih (fun x hx => hl x (List.mem_cons_of_mem _ hx))]

/-- `re.split` keeps the whole text as last segment when no delimiter occurs. -/
theorem lastSeg_all (l : List Char)
    (h : ∀ c ∈ l, (c == '.' || c == '\n' || c == ',' || c == ';') = false) :
    lastSeg l = l := by
  unfold lastSeg
  rw [List.takeWhile_eq_self_iff.mpr (fun c hc => by
    rw [h c (List.mem_reverse.mp hc)]; rfl), List.reverse_reverse]

/-- An ASCII letter is not `@`. -/
theorem alpha_ne_at (c : Char) (h : isAsciiAlpha c = true) : c ≠ '@' := by
  intro hc; subst hc; cases h

/-- An ASCII letter is not a clause delimiter. -/
theorem alpha_not_delim (c : Char) (h : isAsciiAlpha c = true) :
    (c == '.' || c == '\n' || c == ',' || c == ';') = false := by
  by_contra hc
  rw [Bool.not_eq_false, Bool.or_eq_true, Bool.or_eq_true, Bool.or_eq_true] at hc
  rcases hc with ((hd | hd) | hd) | hd <;>
    (rw [beq_iff_eq] at hd; subst hd; cases h)

/-- Characters of a space-join of good tokens are letters or spaces. -/
theorem sepJoin_alpha_or_space : ∀ (ts : List String), (∀ t ∈ ts, GoodTok t) →
    ∀ c ∈ sepJoin ts, isAsciiAlpha c = true ∨ c = ' ' := by
  intro ts
  induction ts with
  | nil => intro _ c hc; cases hc
  | cons t ts ih =>
    intro h c hc
    rw [sepJoin] at hc
    rcases List.mem_cons.mp hc with rfl | hc'
    · exact Or.inr rfl
    · rcases List.mem_append.mp hc' with hc1 | hc2
      · exact Or.inl ((h t (List.mem_cons_self t ts)).2 c hc1)
      · exact ih (fun t' ht' => h t' (List.mem_cons_of_mem _ ht')) c hc2

/-- The last character of a good space-joined name is a letter. -/
theorem sepJoin_getLast : ∀ (ts : List String) (t₀ : String), GoodTok t₀ →
    (∀ t ∈ ts, GoodTok t) →
    ∃ c, (t₀.data ++ sepJoin ts).getLast? = some c ∧ isAsciiAlpha c = true := by
  intro ts
  induction ts with
  | nil =>
    intro t₀ h₀ _
    obtain ⟨hne, hall⟩ := h₀
    rw [sepJoin, List.append_nil]
    cases hg : t₀.data.getLast? with
    | none =>
      rw [List.getLast?_eq_none_iff] at hg
      exact absurd hg hne
    | some c => exact ⟨c, rfl, hall c (List.mem_of_mem_getLast? hg)⟩
  | cons t ts ih =>
    intro t₀ h₀ h
    obtain ⟨hne', -⟩ := h t (List.mem_cons_self t ts)
    obtain ⟨c, hc, hca⟩ := ih t (h t (List.mem_cons_self t ts))
      (fun t' ht' => h t' (List.mem_cons_of_mem _ ht'))
    refine ⟨c, ?_, hca⟩
    rw [sepJoin, show t₀.data ++ ' ' :: (t.data ++ sepJoin ts)
        = (t₀.data ++ [' ']) ++ (t.data ++ sepJoin ts) from by simp]
    rw [List.getLast?_append_of_ne_nil _ (by
      rw [Ne, List.append_eq_nil]
      exact fun hp => hne' hp.1)]
    exact hc

/-- `str.strip()` is the identity when both ends are non-whitespace. -/
theorem pstrip_eq_self (s : String)
    (hh : ∀ c, s.data.head? = some c → isPyWs c = false)
    (hl : ∀ c, s.data.getLast? = some c → isPyWs c = false) : pstrip s = s := by
  unfold pstrip
  rw [dropWhile_eq_self_of_head hh,
    dropWhile_eq_self_of_head (fun c hc => hl c (by rwa [List.head?_reverse] at hc)),
    List.reverse_reverse]

/-- `str.strip()` removes exactly one trailing space from an otherwise
trimmed text. -/
theorem pstrip_mk_space (c0 : Char) (r : List Char)
    (hh : isPyWs c0 = false)
    (hl : ∀ c, (c0 :: r).getLast? = some c → isPyWs c = false) :
    pstrip (String.mk ((c0 :: r) ++ [' '])) = String.mk (c0 :: r) := by
  unfold pstrip
  show String.mk (((((c0 :: r) ++ [' ']).dropWhile isPyWs).reverse.dropWhile isPyWs).reverse)
    = String.mk (c0 :: r)
  rw [List.cons_append,
    List.dropWhile_cons_of_neg (by rw [hh]; exact Bool.false_ne_true)]
  rw [show (c0 :: (r ++ [' '])).reverse = ' ' :: (c0 :: r).reverse from by
    rw [← List.cons_append, List.reverse_append]; rfl]
  rw [List.dropWhile_cons_of_pos (by decide)]
  rw [dropWhile_eq_self_of_head (fun c hc => hl c (by rwa [List.head?_reverse] at hc))]
  rw [List.reverse_reverse]

/-- `str.split()` accumulates a whitespace-free block. -/
theorem wsplitAux_block : ∀ (w : List Char), (∀ c ∈ w, isPyWs c = false) →
    ∀ (rest acc : List Char), wsplitAux (w ++ rest) acc = wsplitAux rest (w.reverse ++ acc) := by
  intro w
  induction w with
  | nil => intro _ rest acc; rfl
  | cons c w ih =>
    intro h rest acc
    have hc : isPyWs c = false := h c (List.mem_cons_self c w)
    rw [List.cons_append]
    show wsplitAux (c :: (w ++ rest)) acc = wsplitAux rest ((c :: w).reverse ++ acc)
    rw [show wsplitAux (c :: (w ++ rest)) acc = wsplitAux (w ++ rest) (c :: acc) from by
      simp only [wsplitAux]
      rw [if_neg (by rw [hc]; exact Bool.false_ne_true)]]
    rw [ih (fun x hx => h x (List.mem_cons_of_mem _ hx)) rest (c :: acc)]
    rw [List.reverse_cons, List.append_assoc, List.singleton_append]

/-- `str.split()` closes the pending word at a space. -/
theorem wsplitAux_space (rest acc : List Char) (hacc : acc ≠ []) :
    wsplitAux (' ' :: rest) acc = String.mk acc.reverse :: wsplitAux rest [] := by
  simp only [wsplitAux]
  rw [if_pos (by decide),
    if_neg (fun h => hacc (List.isEmpty_iff.mp h))]

/-- `str.split()` closes the pending word at the end of text. -/
theorem wsplitAux_final (acc : List Char) (hacc : acc ≠ []) :
    wsplitAux [] acc = [String.mk acc.reverse] := by
  simp only [wsplitAux]
  rw [if_neg (fun h => hacc (List.isEmpty_iff.mp h))]

/-- `str.split()` of a good space-joined token list recovers the tokens. -/
theorem wsplit_tokens : ∀ (ts : List String) (t₀ : String), GoodTok t₀ →
    (∀ t ∈ ts, GoodTok t) →
    wsplitAux (t₀.data ++ sepJoin ts) [] = t₀ :: ts := by
  intro ts
  induction ts with
  | nil =>
    intro t₀ h₀ _
    obtain ⟨hne, hall⟩ := h₀
    rw [sepJoin, List.append_nil]
    rw [show t₀.data = t₀.data ++ ([] : List Char) from (List.append_nil _).symm,
      wsplitAux_block t₀.data (fun c hc => alpha_not_ws c (hall c hc)) [] []]
    rw [List.append_nil, wsplitAux_final _ (by simp [hne]), List.reverse_reverse]
  | cons t ts ih =>
    intro t₀ h₀ h
    obtain ⟨hne, hall⟩ := h₀
    rw [sepJoin]
    rw [wsplitAux_block t₀.data (fun c hc => alpha_not_ws c (hall c hc)) _ []]
    rw [List.append_nil, wsplitAux_space _ _ (by simp [hne]), List.reverse_reverse]
    rw [ih t (h t (List.mem_cons_self t ts)) (fun t' ht' => h t' (List.mem_cons_of_mem _ ht'))]

/-- `str.split()` of `"Meet with <name>"` is `"Meet" :: "with" :: tokens`. -/
theorem wsplit_meetwith (t₀ : String) (ts : List String) (h₀ : GoodTok t₀)
    (h : ∀ t ∈ ts, GoodTok t) :
    wsplit (String.mk ("Meet with ".data ++ (t₀.data ++ sepJoin ts)))
      = "Meet" :: "with" :: t₀ :: ts := by
  unfold wsplit
  show wsplitAux ("Meet with ".data ++ (t₀.data ++ sepJoin ts)) [] = _
  rw [show "Meet with ".data ++ (t₀.data ++ sepJoin ts)
      = "Meet".data ++ (' ' :: ("with".data ++ (' ' :: (t₀.data ++ sepJoin ts)))) from rfl]
  rw [wsplitAux_block "Meet".data (by decide) _ []]
  rw [List.append_nil, wsplitAux_space _ _ (by decide), List.reverse_reverse]
  rw [wsplitAux_block "with".data (by decide) _ []]
  rw [List.append_nil, wsplitAux_space _ _ (by decide), List.reverse_reverse]
  rw [wsplit_tokens ts t₀ h₀ h]

/-- The stopword loop drops `Meet with` and stops at a non-stopword token. -/
theorem dropStops_meetwith (t₀ : String) (ts : List String)
    (hstop : connective_stopwords.contains (slower t₀) = false) :
    dropStops ("Meet" :: "with" :: t₀ :: ts) = t₀ :: ts := by
  simp only [dropStops]
  rw [if_pos (by decide), if_pos (by decide),
    if_neg (by rw [hstop]; exact Bool.false_ne_true)]

/-- `words[-4:]` is the identity on at most four words. -/
theorem lastN_all (l : List String) (h : l.length ≤ 4) : lastN 4 l = l := by
  unfold lastN
  rw [Nat.sub_eq_zero_of_le h, List.drop_zero]

/-- A good space-joined token list passes the bare-name full-match test. -/
theorem nameShapeFrom_good : ∀ (ts : List String) (fuel : Nat) (t₀ : String),
    GoodTok t₀ → (∀ t ∈ ts, GoodTok t) → ts.length ≤ fuel →
    nameShapeFrom fuel (t₀.data ++ sepJoin ts) = true := by
  intro ts
  induction ts with
  | nil =>
    intro fuel t₀ h₀ _ _
    obtain ⟨hne, hall⟩ := h₀
    obtain ⟨c, r, hcr⟩ := List.exists_cons_of_ne_nil hne
    have hc : isAsciiAlpha c = true := hall c (by rw [hcr]; exact List.mem_cons_self c r)
    rw [sepJoin, List.append_nil, hcr]
    unfold nameShapeFrom
    rw [show nameWordAt (c :: r) = some (r.dropWhile isNameChar) from by
      unfold nameWordAt; dsimp only; rw [if_pos hc]]
    rw [List.dropWhile_eq_nil_iff.mpr (fun a ha => alpha_isNameChar a
      (hall a (by rw [hcr]; exact List.mem_cons_of_mem _ ha)))]
    rfl
  | cons t ts ih =>
    intro fuel t₀ h₀ h hlen
    obtain ⟨hne, hall⟩ := h₀
    obtain ⟨c, r, hcr⟩ := List.exists_cons_of_ne_nil hne
    have hc : isAsciiAlpha c = true := hall c (by rw [hcr]; exact List.mem_cons_self c r)
    obtain ⟨hne', hall'⟩ := h t (List.mem_cons_self t ts)
    obtain ⟨c', r', hcr'⟩ := List.exists_cons_of_ne_nil hne'
    cases fuel with
    | zero => simp at hlen
    | succ f =>
      rw [sepJoin, hcr, List.cons_append]
      unfold nameShapeFrom
      rw [show nameWordAt (c :: (r ++ ' ' :: (t.data ++ sepJoin ts)))
          = some ((r ++ ' ' :: (t.data ++ sepJoin ts)).dropWhile isNameChar) from by
        unfold nameWordAt; dsimp only; rw [if_pos hc]]
      rw [dropWhile_append_all _ (fun a ha => alpha_isNameChar a
        (hall a (by rw [hcr]; exact List.mem_cons_of_mem _ ha)))]
      rw [List.dropWhile_cons_of_neg (by decide)]
      dsimp only
      rw [show atDollar (' ' :: (t.data ++ sepJoin ts)) = false from by
        unfold atDollar
        rw [show ((' ' :: (t.data ++ sepJoin ts)).isEmpty) = false from rfl]
        rw [show ((' ' :: (t.data ++ sepJoin ts)) == ['\n']) = false from by
          simp]
        rfl]
      rw [Bool.false_or]
      show (let ws := (' ' :: (t.data ++ sepJoin ts)).takeWhile isPyWs
        !ws.isEmpty && nameShapeFrom f ((' ' :: (t.data ++ sepJoin ts)).drop ws.length)) = true
      rw [show (' ' :: (t.data ++ sepJoin ts)).takeWhile isPyWs = [' '] from by
        rw [List.takeWhile_cons_of_pos (by decide), hcr', List.cons_append,
          List.takeWhile_cons_of_neg (by
            rw [alpha_not_ws c' (hall' c' (by rw [hcr']; exact List.mem_cons_self c' r'))]
            exact Bool.false_ne_true)]]
      show (!([' '] : List Char).isEmpty
        && nameShapeFrom f ((' ' :: (t.data ++ sepJoin ts)).drop 1)) = true
      rw [show (' ' :: (t.data ++ sepJoin ts)).drop 1 = t.data ++ sepJoin ts from rfl]
      rw [ih f t (h t (List.mem_cons_self t ts))
        (fun t' ht' => h t' (List.mem_cons_of_mem _ ht'))
        (by exact Nat.le_of_succ_le_succ (by simpa using hlen))]
      rfl

/-- The email pattern fails wherever the local-part run is followed by a
space instead of `@`. -/
theorem matchEmailAt_none_space (cs : List Char)
    (h : ∃ rest, cs.drop (cs.takeWhile isLocalChar).length = ' ' :: rest) :
    matchEmailAt cs = none := by
  obtain ⟨rest, hr⟩ := h
  unfold matchEmailAt
  dsimp only
  rw [hr]
  by_cases hE : (cs.takeWhile isLocalChar).isEmpty = true
  · rw [if_pos hE]
  · rw [if_neg hE]
    split
    · rename_i heq
      simp at heq
    · rfl

/-- In a letters-and-spaces block every local-part run ends at a space. -/
theorem local_run_space : ∀ (l : List Char), (∀ c ∈ l, isAsciiAlpha c = true ∨ c = ' ') →
    ∀ (z : List Char),
    ∃ rest, (l ++ ' ' :: z).drop ((l ++ ' ' :: z).takeWhile isLocalChar).length
      = ' ' :: rest := by
  intro l
  induction l with
  | nil =>
    intro _ z
    refine ⟨z, ?_⟩
    rw [List.nil_append, List.takeWhile_cons_of_neg (by decide)]
    rfl
  | cons c l ih =>
    intro h z
    rcases h c (List.mem_cons_self c l) with hca | rfl
    · obtain ⟨rest, hr⟩ := ih (fun x hx => h x (List.mem_cons_of_mem _ hx)) z
      refine ⟨rest, ?_⟩
      rw [List.cons_append, List.takeWhile_cons_of_pos (alpha_isLocalChar c hca),
        List.length_cons, List.drop_succ_cons]
      exact hr
    · refine ⟨l ++ ' ' :: z, ?_⟩
      rw [List.cons_append, List.takeWhile_cons_of_neg (by decide)]
      rfl

/-- The email scan over `"<letters and spaces> bob@x.com"` finds exactly the
trailing email. -/
theorem findEmailScan_pre : ∀ (l : List Char), (∀ c ∈ l, isAsciiAlpha c = true ∨ c = ' ') →
    findEmailScan (l ++ ' ' :: "bob@x.com".data) = some ("bob@x.com".data, []) := by
  intro l
  induction l with
  | nil => intro _; decide
  | cons c l ih =>
    intro h
    rw [List.cons_append]
    show findEmailScan (c :: (l ++ ' ' :: "bob@x.com".data)) = _
    simp only [findEmailScan]
    rw [show matchEmailAt (c :: (l ++ ' ' :: "bob@x.com".data)) = none from
      matchEmailAt_none_space _ (by
        rw [← List.cons_append]
        exact local_run_space (c :: l) h "bob@x.com".data)]
    exact ih (fun x hx => h x (List.mem_cons_of_mem _ hx))

/-- `re.findall`'s first hit under sufficient fuel. -/
theorem extractEmailsAux_head (fuel : Nat) (cs : List Char) (m rest : List Char)
    (hfuel : cs.length = fuel) (hne : cs ≠ [])
    (hscan : findEmailScan cs = some (m, rest)) :
    (extractEmailsAux fuel cs).head? = some (String.mk m) := by
  cases fuel with
  | zero =>
    cases cs with
    | nil => exact absurd rfl hne
    | cons c cs' => simp at hfuel
  | succ f =>
    simp only [extractEmailsAux]
    rw [hscan]
    rfl

/-- `CalendarAgent._extract_email` on `"<letters and spaces> bob@x.com"`. -/
theorem extract_email_pre (pre : List Char)
    (hpre : ∀ c ∈ pre, isAsciiAlpha c = true ∨ c = ' ') :
    extract_email (String.mk (pre ++ ' ' :: "bob@x.com".data)) = some "bob@x.com" := by
  unfold extract_email extract_emails
  exact extractEmailsAux_head _ _ _ _ rfl (by simp) (findEmailScan_pre pre hpre)

/-- A string with non-empty character data is not `""`. -/
theorem string_ne_empty_of_data (s : String) (h : s.data ≠ []) : (s == "") = false := by
  cases hb : s == "" with
  | false => rfl
  | true => exact absurd (congrArg String.data (eq_of_beq hb)) h

/-- C9 (amended): for every bare-name phrase of at most four non-empty
alphabetic tokens whose first token is not a connective stopword, whose
lowercase join contains no scheduling-noun blocklist term as a substring
(the code tests substring containment, not set membership), placed before a
recognized email address as in `"Meet with <name> bob@x.com"`, attendee-name
extraction returns exactly that phrase — provided none of the four explicit
name patterns (labelled `name:`, `name is` phrasing, titled name,
`attendee is`) matches anywhere in the text. -/
theorem C9_clause_amended (t₀ : String) (ts : List String)
    (h₀ : GoodTok t₀) (hts : ∀ t ∈ ts, GoodTok t)
    (hlen : (t₀ :: ts).length ≤ 4)
    (hstop : connective_stopwords.contains (slower t₀) = false)
    (hblock : (non_name_terms.any (fun term =>
      strContainsSub (slower (String.intercalate " " (t₀ :: ts))) term)) = false)
    (hlab : labeledSearch ("Meet with " ++ String.intercalate " " (t₀ :: ts)
      ++ " bob@x.com").data = none)
    (hphr : phraseSearch ("Meet with " ++ String.intercalate " " (t₀ :: ts)
      ++ " bob@x.com").data = none)
    (htit : titledSearch ("Meet with " ++ String.intercalate " " (t₀ :: ts)
      ++ " bob@x.com").data = none)
    (hnam : namedSearch ("Meet with " ++ String.intercalate " " (t₀ :: ts)
      ++ " bob@x.com").data = none) :
    extract_attendee_name ("Meet with " ++ String.intercalate " " (t₀ :: ts) ++ " bob@x.com")
      = some (String.intercalate " " (t₀ :: ts)) := by
  obtain ⟨hne₀, hall₀⟩ := h₀
  obtain ⟨c0, r0, hcr0⟩ := List.exists_cons_of_ne_nil hne₀
  set nm := String.intercalate " " (t₀ :: ts) with hnm
  set text := "Meet with " ++ nm ++ " bob@x.com" with htextdef
  have hnd : nm.data = t₀.data ++ sepJoin ts := intercalate_data t₀ ts
  have hndne : nm.data ≠ [] := by rw [hnd, hcr0]; simp
  have htext : text.data = ("Meet with ".data ++ nm.data) ++ (' ' :: "bob@x.com".data) := by
    rw [htextdef, String.data_append, String.data_append]
  have hpre2 : ∀ c ∈ ("Meet with ".data ++ nm.data), isAsciiAlpha c = true ∨ c = ' ' := by
    intro c hc
    rcases List.mem_append.mp hc with h1 | h2
    · exact (by decide : ∀ c ∈ "Meet with ".data, isAsciiAlpha c = true ∨ c = ' ') c h1
    · rw [hnd] at h2
      rcases List.mem_append.mp h2 with h3 | h4
      · exact Or.inl (hall₀ c h3)
      · exact sepJoin_alpha_or_space ts hts c h4
  have hemail : extract_email text = some "bob@x.com" := by
    rw [show text = String.mk (("Meet with ".data ++ nm.data) ++ ' ' :: "bob@x.com".data) from
      congrArg String.mk htext]
    exact extract_email_pre _ hpre2
  have hgetlast : ∀ c, ("Meet with ".data ++ nm.data).getLast? = some c → isPyWs c = false := by
    obtain ⟨cl, hcl, hcla⟩ := sepJoin_getLast ts t₀ ⟨hne₀, hall₀⟩ hts
    intro c hc
    rw [List.getLast?_append_of_ne_nil _ hndne, hnd, hcl] at hc
    injection hc with hceq
    rw [← hceq]
    exact alpha_not_ws cl hcla
  have hsplit : splitFirst text.data "bob@x.com".data
      = ("Meet with ".data ++ nm.data) ++ [' '] := by
    rw [htext, show ("Meet with ".data ++ nm.data) ++ ' ' :: "bob@x.com".data
      = (("Meet with ".data ++ nm.data) ++ [' ']) ++ "bob@x.com".data from by simp]
    apply splitFirst_bob
    intro c hc
    rcases List.mem_append.mp hc with h1 | h2
    · rcases hpre2 c h1 with ha | rfl
      · exact alpha_ne_at c ha
      · decide
    · rw [List.mem_singleton.mp h2]; decide
  have hlastseg : lastSeg (("Meet with ".data ++ nm.data) ++ [' '])
      = ("Meet with ".data ++ nm.data) ++ [' '] := by
    apply lastSeg_all
    intro c hc
    rcases List.mem_append.mp hc with h1 | h2
    · rcases hpre2 c h1 with ha | rfl
      · exact alpha_not_delim c ha
      · decide
    · rw [List.mem_singleton.mp h2]; decide
  have hM : "Meet with ".data ++ nm.data = 'M' :: ("eet with ".data ++ nm.data) := rfl
  have hclause : pstrip (String.mk (("Meet with ".data ++ nm.data) ++ [' ']))
      = String.mk ("Meet with ".data ++ nm.data) := by
    rw [hM]
    exact pstrip_mk_space 'M' _ (by decide) (fun c hc => hgetlast c (by rw [hM]; exact hc))
  have hclne : (String.mk ("Meet with ".data ++ nm.data) != "") = true := by
    rw [bne, string_ne_empty_of_data _ (by rw [hM]; exact List.cons_ne_nil _ _)]
    rfl
  have hws : wsplit (String.mk ("Meet with ".data ++ nm.data))
      = "Meet" :: "with" :: t₀ :: ts := by
    rw [show String.mk ("Meet with ".data ++ nm.data)
      = String.mk ("Meet with ".data ++ (t₀.data ++ sepJoin ts)) from by rw [hnd]]
    exact wsplit_meetwith t₀ ts ⟨hne₀, hall₀⟩ hts
  have hpstripnm : pstrip nm = nm := by
    apply pstrip_eq_self
    · intro c hc
      rw [hnd, hcr0, List.cons_append] at hc
      injection hc with hceq
      rw [← hceq]
      exact alpha_not_ws c0 (hall₀ c0 (by rw [hcr0]; exact List.mem_cons_self c0 r0))
    · obtain ⟨cl, hcl, hcla⟩ := sepJoin_getLast ts t₀ ⟨hne₀, hall₀⟩ hts
      intro c hc
      rw [hnd, hcl] at hc
      injection hc with hceq
      rw [← hceq]
      exact alpha_not_ws cl hcla
  have hnmne : (nm != "") = true := by
    rw [bne, string_ne_empty_of_data _ hndne]
    rfl
  have hwsnm : wsplit nm = t₀ :: ts := by
    unfold wsplit
    rw [hnd]
    exact wsplit_tokens ts t₀ ⟨hne₀, hall₀⟩ hts
  have hc2 : decide ((wsplit nm).length ≤ 4) = true := by
    rw [hwsnm]
    exact decide_eq_true hlen
  have hshape : nameShape nm = true := by
    unfold nameShape
    rw [hnd]
    exact nameShapeFrom_good ts 3 t₀ ⟨hne₀, hall₀⟩ hts
      (Nat.le_of_succ_le_succ (by simpa using hlen))
  show extract_attendee_name text = some nm
  unfold extract_attendee_name
  rw [if_neg (by
    rw [string_ne_empty_of_data text (by rw [htext]; simp)]
    exact Bool.false_ne_true)]
  rw [hlab]
  dsimp only
  rw [hphr]
  dsimp only
  rw [htit]
  dsimp only
  rw [hnam]
  dsimp only
  rw [hemail]
  dsimp only
  rw [hsplit, hlastseg, hclause]
  rw [if_pos hclne]
  rw [hws, dropStops_meetwith t₀ ts hstop, lastN_all (t₀ :: ts) hlen]
  rw [← hnm]
  rw [hpstripnm]
  rw [if_pos (by rw [hnmne, hc2, hblock, hshape]; rfl)]

/-- C9 counterexample: in `"Invite Pam pam@x.com"` an email is preceded by
the short capitalized clause `"Pam"` (after trimming the stopword
`"invite"`), `"Pam"` is a valid name shape and is *not a member* of the
scheduling-noun blocklist, and no labelled/`name is`/titled/`attendee is`
pattern occurs — yet extraction returns nothing, because the blocklist test
is substring containment and `"pam"` contains `"am"`. -/
theorem C9_counterexample :
    extract_email "Invite Pam pam@x.com" = some "pam@x.com"
    ∧ dropStops (wsplit (pstrip (String.mk (lastSeg
        (splitFirst ("Invite Pam pam@x.com").data ("pam@x.com").data))))) = ["Pam"]
    ∧ nameShape "Pam" = true
    ∧ non_name_terms.contains "Pam" = false
    ∧ non_name_terms.contains (slower "Pam") = false
    ∧ labeledSearch ("Invite Pam pam@x.com").data = none
    ∧ phraseSearch ("Invite Pam pam@x.com").data = none
    ∧ titledSearch ("Invite Pam pam@x.com").data = none
    ∧ namedSearch ("Invite Pam pam@x.com").data = none
    ∧ extract_attendee_name "Invite Pam pam@x.com" = none := by decide

/-- The amended clause-extraction law at the concrete phrase `Sarah Jane`. -/
theorem C9_clause_amended_witness :
    GoodTok "Sarah" ∧ (∀ t ∈ ["Jane"], GoodTok t)
    ∧ ("Sarah" :: ["Jane"]).length ≤ 4
    ∧ connective_stopwords.contains (slower "Sarah") = false
    ∧ (non_name_terms.any (fun term =>
        strContainsSub (slower (String.intercalate " " ("Sarah" :: ["Jane"]))) term)) = false
    ∧ extract_attendee_name "Meet with Sarah Jane bob@x.com" = some "Sarah Jane" :=
  ⟨by unfold GoodTok; decide,
   by intro t ht; obtain rfl := List.mem_singleton.mp ht; unfold GoodTok; decide,
   by decide, by decide, by decide,
   C9_clause_amended "Sarah" ["Jane"] (by unfold GoodTok; decide)
     (by intro t ht; obtain rfl := List.mem_singleton.mp ht; unfold GoodTok; decide)
     (by decide) (by decide) (by decide) (by decide) (by decide) (by decide) (by decide)⟩
